import Mathlib

/-!
Verification development for the Nut repository's service build / meta-discovery
and project-generation pipeline.

The Python sources are shallowly embedded as Lean definitions:
pure computations become Lean functions, filesystem and process effects are
made explicit (filesystem contents, toolchain outcomes and random sources are
passed in as data; emitted diagnostics and invoked commands are returned as
event lists), and Python exceptions become `Except` values.
-/

/-! ## Python dict semantics

Python `dict` assignment `d[k] = v` keeps the original insertion position of an
existing key (replacing its value) and appends new keys at the end;
`d.update(e)` assigns every entry of `e` into `d` in order.  We model a dict as
an association list whose keys are unique by construction. -/

def dictInsert {α : Type} : List (String × α) → String → α → List (String × α)
  | [], k, v => [(k, v)]
  | p :: rest, k, v =>
      if p.1 = k then (k, v) :: rest else p :: dictInsert rest k v

def dictLookup {α : Type} (d : List (String × α)) (k : String) : Option α :=
  (d.find? (fun p => p.1 = k)).map (fun p => p.2)

def dictUpdate {α : Type} (d e : List (String × α)) : List (String × α) :=
  e.foldl (fun acc p => dictInsert acc p.1 p.2) d

def dictKeys {α : Type} (d : List (String × α)) : List String :=
  d.map (fun p => p.1)

theorem dictLookup_nil {α : Type} (k : String) :
    dictLookup ([] : List (String × α)) k = none := rfl

theorem dictLookup_cons {α : Type} (p : String × α) (d : List (String × α))
    (k : String) :
    dictLookup (p :: d) k = if p.1 = k then some p.2 else dictLookup d k := by
  unfold dictLookup
  by_cases h : p.1 = k
  · simp [List.find?_cons, h]
  · simp [List.find?_cons, h]

theorem dictInsert_lookup {α : Type} (d : List (String × α)) (k k' : String)
    (v : α) :
    dictLookup (dictInsert d k v) k' =
      if k' = k then some v else dictLookup d k' := by
  induction d with
  | nil =>
    by_cases h : k' = k
    · simp [dictInsert, dictLookup_cons, dictLookup_nil, h]
    · have h2 : ¬ (k = k') := fun hh => h hh.symm
      simp [dictInsert, dictLookup_cons, dictLookup_nil, h, h2]
  | cons p rest ih =>
    by_cases hp : p.1 = k
    · simp only [dictInsert, hp, if_true]
      by_cases h : k' = k
      · simp [dictLookup_cons, h]
      · rw [dictLookup_cons, dictLookup_cons]
        simp only [h, if_false]
        have : ¬ ((k, v).1 = k') := fun hh => h hh.symm
        simp only [this, if_false]
        rw [hp]
        have : ¬ (k = k') := fun hh => h hh.symm
        simp [this]
    · simp only [dictInsert, hp, if_false]
      rw [dictLookup_cons, dictLookup_cons, ih]
      by_cases hpk' : p.1 = k'
      · have : ¬ (k' = k) := fun hh => hp (by rw [hpk', hh])
        simp [hpk', this]
      · simp [hpk']

theorem dictInsert_keys_nodup {α : Type} (d : List (String × α)) (k : String)
    (v : α) (hd : (dictKeys d).Nodup) : (dictKeys (dictInsert d k v)).Nodup := by
  induction d with
  | nil => simp [dictInsert, dictKeys]
  | cons p rest ih =>
    simp only [dictKeys, List.map_cons, List.nodup_cons] at hd
    by_cases hp : p.1 = k
    · simp only [dictInsert, hp, if_true, dictKeys, List.map_cons,
        List.nodup_cons]
      exact ⟨by rw [← hp]; exact hd.1, hd.2⟩
    · simp only [dictInsert, hp, if_false, dictKeys, List.map_cons,
        List.nodup_cons]
      refine ⟨?_, ih hd.2⟩
      intro hmem
      -- `p.1` is among the keys of `dictInsert rest k v`, i.e. old keys plus `k`
      have hsub : ∀ x, x ∈ dictKeys (dictInsert rest k v) →
          x ∈ dictKeys rest ∨ x = k := by
        clear hmem ih hd
        intro x
        induction rest with
        | nil => simp [dictInsert, dictKeys]
        | cons q qs ihq =>
          by_cases hq : q.1 = k
          · simp only [dictInsert, hq, if_true, dictKeys, List.map_cons,
              List.mem_cons]
            intro hx
            rcases hx with hx | hx
            · right; exact hx
            · left; right; exact hx
          · simp only [dictInsert, hq, if_false, dictKeys, List.map_cons,
              List.mem_cons]
            intro hx
            rcases hx with hx | hx
            · left; left; exact hx
            · rcases ihq hx with h | h
              · left; right; exact h
              · right; exact h
      rcases hsub p.1 hmem with h | h
      · exact hd.1 (by simpa [dictKeys] using h)
      · exact hp h

theorem dictInsert_mem_keys {α : Type} (d : List (String × α)) (k x : String)
    (v : α) :
    x ∈ dictKeys (dictInsert d k v) ↔ x ∈ dictKeys d ∨ x = k := by
  induction d with
  | nil => simp [dictInsert, dictKeys, eq_comm]
  | cons p rest ih =>
    by_cases hp : p.1 = k
    · subst hp
      simp only [dictInsert, if_true, dictKeys, List.map_cons, List.mem_cons]
      simp only [dictKeys] at ih
      tauto
    · simp only [dictInsert, hp, if_false, dictKeys, List.map_cons,
        List.mem_cons] at ih ⊢
      tauto

/-! ## Service meta discovery (BuildSystem/BuildScripts/ServiceMetaLoader.py and
Source/Programs/NutBuildTools/Core/ServiceMetaLoader.py)

Both loaders iterate the candidate service directories, execute each found
`<X>.Build.py` descriptor and store the resulting `ServiceMeta` dict under
`services[module.ServiceMeta["name"]]`.  We embed one discovery pass as a fold
of Python-dict assignment over the descriptors in iteration order; directories
without a descriptor contribute nothing, so the input is the list of
successfully loaded descriptor metas.  The loader prints no diagnostic. -/

structure ServiceMeta where
  name : String
  protoFiles : List String
  configFiles : List String
  output : Option String
deriving DecidableEq

structure DiscoveryOutput where
  services : List (String × ServiceMeta)
  diagnostics : List String
deriving DecidableEq

def LoadAllServiceMeta (discovered : List ServiceMeta) : DiscoveryOutput :=
  ⟨discovered.foldl (fun acc m => dictInsert acc m.name m) [], []⟩

/-- The last element of `l` whose declared name is `n` (the "last-discovered"
unit of the claim's wording). -/
def lastDiscovered : List ServiceMeta → String → Option ServiceMeta
  | [], _ => none
  | m :: rest, n =>
      (lastDiscovered rest n).or (if m.name = n then some m else none)

theorem loadAcc_lookup (l : List ServiceMeta)
    (acc : List (String × ServiceMeta)) (n : String) :
    dictLookup (l.foldl (fun a m => dictInsert a m.name m) acc) n =
      (lastDiscovered l n).or (dictLookup acc n) := by
  induction l generalizing acc with
  | nil => simp [lastDiscovered]
  | cons m rest ih =>
    simp only [List.foldl_cons, lastDiscovered]
    rw [ih, dictInsert_lookup]
    cases hlast : lastDiscovered rest n with
    | some x => simp [Option.or]
    | none =>
      simp only [Option.or]
      by_cases h : m.name = n
      · simp [h, Option.or]
      · have h2 : ¬ (n = m.name) := fun hh => h hh.symm
        simp [h, h2, Option.or]

theorem loadAcc_keys_nodup (l : List ServiceMeta)
    (acc : List (String × ServiceMeta)) (hacc : (dictKeys acc).Nodup) :
    (dictKeys (l.foldl (fun a m => dictInsert a m.name m) acc)).Nodup := by
  induction l generalizing acc with
  | nil => exact hacc
  | cons m rest ih =>
    exact ih (dictInsert acc m.name m) (dictInsert_keys_nodup acc m.name m hacc)

theorem loadAcc_mem_keys (l : List ServiceMeta)
    (acc : List (String × ServiceMeta)) (x : String) :
    x ∈ dictKeys (l.foldl (fun a m => dictInsert a m.name m) acc) ↔
      x ∈ dictKeys acc ∨ x ∈ l.map (fun m => m.name) := by
  induction l generalizing acc with
  | nil => simp
  | cons m rest ih =>
    simp only [List.foldl_cons, List.map_cons, List.mem_cons]
    rw [ih, dictInsert_mem_keys]
    tauto

theorem nodup_countP_eq_one {α : Type} (d : List (String × α)) (n : String)
    (hnd : (dictKeys d).Nodup) (hmem : n ∈ dictKeys d) :
    d.countP (fun p => p.1 = n) = 1 := by
  induction d with
  | nil => simp [dictKeys] at hmem
  | cons p rest ih =>
    simp only [dictKeys, List.map_cons, List.nodup_cons] at hnd
    simp only [dictKeys, List.map_cons, List.mem_cons] at hmem
    rw [List.countP_cons]
    by_cases hp : p.1 = n
    · have hrest : rest.countP (fun q => q.1 = n) = 0 := by
        rw [List.countP_eq_zero]
        intro q hq
        simp only [decide_eq_true_eq]
        intro hqn
        exact hnd.1 (by rw [hp, ← hqn]; exact List.mem_map_of_mem _ hq)
      simp [hp, hrest]
    · have hmem' : n ∈ dictKeys rest := by
        rcases hmem with h | h
        · exact absurd h.symm hp
        · exact h
      simp only [decide_eq_true_eq, hp, if_false]
      simpa using ih hnd.2 hmem'

theorem dictLookup_eq_none_iff {α : Type} (d : List (String × α)) (n : String) :
    dictLookup d n = none ↔ n ∉ dictKeys d := by
  induction d with
  | nil => simp [dictLookup_nil, dictKeys]
  | cons p rest ih =>
    rw [dictLookup_cons]
    by_cases hp : p.1 = n
    · simp [hp, dictKeys]
    · have hnp : ¬ (n = p.1) := fun hh => hp hh.symm
      simp only [hp, if_false, dictKeys, List.map_cons, List.mem_cons]
      rw [ih]
      simp only [dictKeys]
      constructor
      · intro h hcon
        rcases hcon with h1 | h1
        · exact hnp h1
        · exact h h1
      · intro h hmem
        exact h (Or.inr hmem)

theorem dictUpdate_lookup {α : Type} (d e : List (String × α)) (n : String)
    (he : (dictKeys e).Nodup) :
    dictLookup (dictUpdate d e) n = (dictLookup e n).or (dictLookup d n) := by
  induction e generalizing d with
  | nil => simp [dictUpdate, dictLookup_nil, Option.or]
  | cons p rest ih =>
    simp only [dictKeys, List.map_cons, List.nodup_cons] at he
    simp only [dictUpdate, List.foldl_cons]
    have ihp := ih (dictInsert d p.1 p.2) he.2
    simp only [dictUpdate] at ihp
    rw [ihp, dictInsert_lookup, dictLookup_cons]
    by_cases hp : p.1 = n
    · have hrest : dictLookup rest n = none := by
        rw [dictLookup_eq_none_iff]
        intro hmem
        exact he.1 (by rw [hp]; simpa [dictKeys] using hmem)
      rw [hrest, hp, if_pos rfl, if_pos rfl]
      simp [Option.or]
    · have hnp : ¬ (n = p.1) := fun hh => hp hh.symm
      simp [hp, hnp]

theorem lastDiscovered_some (l : List ServiceMeta) (n : String)
    (x : ServiceMeta) (h : lastDiscovered l n = some x) :
    x.name = n ∧ x ∈ l := by
  induction l with
  | nil => simp [lastDiscovered] at h
  | cons m rest ih =>
    simp only [lastDiscovered] at h
    cases hr : lastDiscovered rest n with
    | some y =>
      rw [hr] at h
      simp only [Option.or] at h
      rcases ih (by rw [hr, h]) with ⟨h1, h2⟩
      exact ⟨h1, List.mem_cons_of_mem m h2⟩
    | none =>
      rw [hr] at h
      simp only [Option.or] at h
      by_cases hm : m.name = n
      · simp only [hm, if_true, Option.some_inj] at h
        exact ⟨by rw [← h]; exact hm, by rw [← h]; exact List.mem_cons_self m rest⟩
      · simp [hm] at h

theorem lastDiscovered_of_mem (l : List ServiceMeta) (n : String)
    (h : n ∈ l.map (fun m => m.name)) :
    ∃ m, lastDiscovered l n = some m ∧ m.name = n := by
  induction l with
  | nil => simp at h
  | cons m rest ih =>
    simp only [List.map_cons, List.mem_cons] at h
    simp only [lastDiscovered]
    by_cases hr : n ∈ rest.map (fun q => q.name)
    · rcases ih hr with ⟨x, hx, hxn⟩
      exact ⟨x, by simp [hx, Option.or], hxn⟩
    · have hnone : lastDiscovered rest n = none := by
        cases hlast : lastDiscovered rest n with
        | none => rfl
        | some x =>
          rcases lastDiscovered_some rest n x hlast with ⟨h1, h2⟩
          exact absurd (List.mem_map.mpr ⟨x, h2, h1⟩) hr
      rcases h with h | h
      · refine ⟨m, ?_, h.symm⟩
        simp [hnone, Option.or, h.symm]
      · exact absurd h hr

/-- C1: For every discovery pass, when two descriptor files declare the same
unit name, the mapping returned by discovery contains exactly one entry for
that name, bound to the last-discovered unit; unioning a second pass of search
roots (Python `dict.update`, as in `Core/BuildEngine.py`) lets later-discovered
units overwrite earlier ones; and no error or warning is raised for the
collision. -/
theorem discovery_last_wins (l : List ServiceMeta) (n : String)
    (m1 m2 : ServiceMeta) (h1 : m1 ∈ l) (h2 : m2 ∈ l)
    (hn1 : m1.name = n) (hn2 : m2.name = n) (hne : m1 ≠ m2) :
    (LoadAllServiceMeta l).services.countP (fun p => p.1 = n) = 1 ∧
    dictLookup (LoadAllServiceMeta l).services n = lastDiscovered l n ∧
    (LoadAllServiceMeta l).diagnostics = [] ∧
    ∀ l2 : List ServiceMeta, ∀ n2 : String,
      dictLookup (dictUpdate (LoadAllServiceMeta l).services
          (LoadAllServiceMeta l2).services) n2 =
        (dictLookup (LoadAllServiceMeta l2).services n2).or
          (dictLookup (LoadAllServiceMeta l).services n2) := by
  have hnil : (dictKeys ([] : List (String × ServiceMeta))).Nodup := by
    simp [dictKeys]
  have hnodup := loadAcc_keys_nodup l [] hnil
  have hmem : n ∈ dictKeys (LoadAllServiceMeta l).services := by
    simp only [LoadAllServiceMeta]
    rw [loadAcc_mem_keys]
    right
    exact List.mem_map.mpr ⟨m1, h1, hn1⟩
  refine ⟨?_, ?_, rfl, ?_⟩
  · exact nodup_countP_eq_one _ n hnodup hmem
  · have := loadAcc_lookup l [] n
    simp only [LoadAllServiceMeta]
    rw [this, dictLookup_nil]
    cases lastDiscovered l n <;> rfl
  · intro l2 n2
    exact dictUpdate_lookup _ _ n2 (loadAcc_keys_nodup l2 [] hnil)

def c1m1 : ServiceMeta := ⟨"Svc", [], [], none⟩

def c1m2 : ServiceMeta := ⟨"Svc", ["a.proto"], [], none⟩

theorem discovery_last_wins_witness :
    c1m1 ∈ [c1m1, c1m2] ∧ c1m2 ∈ [c1m1, c1m2] ∧ c1m1.name = "Svc" ∧
    c1m2.name = "Svc" ∧ c1m1 ≠ c1m2 ∧
    ((LoadAllServiceMeta [c1m1, c1m2]).services.countP
        (fun p => p.1 = "Svc") = 1 ∧
     dictLookup (LoadAllServiceMeta [c1m1, c1m2]).services "Svc" =
       lastDiscovered [c1m1, c1m2] "Svc" ∧
     (LoadAllServiceMeta [c1m1, c1m2]).diagnostics = [] ∧
     ∀ l2 : List ServiceMeta, ∀ n2 : String,
       dictLookup (dictUpdate (LoadAllServiceMeta [c1m1, c1m2]).services
           (LoadAllServiceMeta l2).services) n2 =
         (dictLookup (LoadAllServiceMeta l2).services n2).or
           (dictLookup (LoadAllServiceMeta [c1m1, c1m2]).services n2)) :=
  ⟨by simp, by simp, rfl, rfl, by decide,
   discovery_last_wins [c1m1, c1m2] "Svc" c1m1 c1m2 (by simp) (by simp)
     rfl rfl (by decide)⟩

/-- The discovered unit bound to a duplicated name really is the second
descriptor, evaluated on the concrete duplicate pair. -/
theorem discovery_last_wins_concrete :
    dictLookup (LoadAllServiceMeta [c1m1, c1m2]).services "Svc" = some c1m2 := by
  decide

/-! ## Clean (Source/Programs/NutBuildTools/Core/Compiler.py, CleanService,
lines 151-162; BuildSystem/BuildScripts/Compiler.py, CleanService, lines
110-117)

`shutil.rmtree` raises `FileNotFoundError` on a missing path; both variants
guard every removal with an existence check.  The Core variant removes the
unit's output directory and its intermediate directory; the BuildScripts
variant keeps objects and artifacts in one `Build` directory and removes it.
State is the pair of existence flags; removal events and the terminal
"nothing to clean" message are returned as events. -/

structure DirState where
  outputDirExists : Bool
  intermediateDirExists : Bool
deriving DecidableEq

inductive CleanEvent where
  | removedOutput
  | removedIntermediate
  | nothingToClean
deriving DecidableEq

def rmtree (pathExists : Bool) : Except String Unit :=
  if pathExists then Except.ok () else Except.error "FileNotFoundError"

def CleanService (s : DirState) : Except String (DirState × List CleanEvent) :=
  let step1 : Except String (DirState × List CleanEvent) :=
    if s.outputDirExists then
      match rmtree s.outputDirExists with
      | Except.ok _ =>
          Except.ok (⟨false, s.intermediateDirExists⟩,
            [CleanEvent.removedOutput])
      | Except.error e => Except.error e
    else Except.ok (s, [])
  match step1 with
  | Except.error e => Except.error e
  | Except.ok (s1, evs1) =>
    if s1.intermediateDirExists then
      match rmtree s1.intermediateDirExists with
      | Except.ok _ =>
          Except.ok (⟨s1.outputDirExists, false⟩,
            evs1 ++ [CleanEvent.removedIntermediate])
      | Except.error e => Except.error e
    else Except.ok (s1, evs1 ++ [CleanEvent.nothingToClean])

def CleanServiceBuildScripts (buildDirExists : Bool) :
    Except String (Bool × List CleanEvent) :=
  if buildDirExists then
    match rmtree buildDirExists with
    | Except.ok _ => Except.ok (false, [CleanEvent.removedOutput])
    | Except.error e => Except.error e
  else Except.ok (buildDirExists, [CleanEvent.nothingToClean])

/-- C5: Clean removes both the output directory and the intermediate
directory, and it is idempotent: a second call leaves the same (fully
cleaned) state and completes without error; the single-directory
BuildScripts variant behaves the same on its `Build` directory. -/
theorem cleanService_removes_and_idempotent (s : DirState) :
    (∃ evs, CleanService s = Except.ok (⟨false, false⟩, evs)) ∧
    CleanService ⟨false, false⟩ =
      Except.ok (⟨false, false⟩, [CleanEvent.nothingToClean]) ∧
    (∀ b : Bool, ∃ evs2, CleanServiceBuildScripts b = Except.ok (false, evs2)) ∧
    CleanServiceBuildScripts false =
      Except.ok (false, [CleanEvent.nothingToClean]) := by
  refine ⟨?_, rfl, ?_, rfl⟩
  · rcases s with ⟨o, i⟩
    cases o <;> cases i <;> exact ⟨_, rfl⟩
  · intro b
    cases b <;> exact ⟨_, rfl⟩

/-! ## `list` command (BuildSystem/BuildScripts/BuildEngine.py, ListServices,
lines 11-14; identical in Core/BuildEngine.py)

`ListServices` prints a header, then one line per entry of
`self.services.values()` in dict order, i.e. in discovery/insertion order.
No sorting is applied. -/

def ListServices (services : List (String × ServiceMeta)) : List String :=
  "可用服务：" :: services.map (fun p => "  - " ++ p.2.name)

def c9svcB : ServiceMeta := ⟨"B", [], [], none⟩

def c9svcA : ServiceMeta := ⟨"A", [], [], none⟩

/-- C9 counterexample: on a discovery order `B, A` the printed unit names are
`B, A` — the display is not sorted (lexicographically, as Python `sorted`
would give), contrary to the claim. -/
theorem listServices_not_sorted :
    ListServices [("B", c9svcB), ("A", c9svcA)] =
      ["可用服务：", "  - B", "  - A"] ∧
    ¬ List.Sorted (fun a b : String => a.data ≤ b.data)
        (ListServices [("B", c9svcB), ("A", c9svcA)]).tail := by
  constructor
  · rfl
  · intro h
    simp only [ListServices, List.tail] at h
    have hBA : ("  - B" : String).data ≤ ("  - A" : String).data :=
      List.rel_of_sorted_cons h _ (by simp [c9svcA])
    have : ¬ (("  - B" : String).data ≤ ("  - A" : String).data) := by decide
    exact this hBA

/-- C9 (amended): the `list` command prints the name of every discovered
unit, in discovery (insertion) order — no sorting is applied for display. -/
theorem listServices_prints_all_in_discovery_order
    (services : List (String × ServiceMeta)) :
    ListServices services =
      "可用服务：" :: services.map (fun p => "  - " ++ p.2.name) ∧
    ∀ p ∈ services, ("  - " ++ p.2.name) ∈ ListServices services := by
  refine ⟨rfl, ?_⟩
  intro p hp
  simp only [ListServices, List.mem_cons]
  right
  exact List.mem_map.mpr ⟨p, hp, rfl⟩

theorem listServices_prints_all_witness :
    ListServices [("B", c9svcB), ("A", c9svcA)] =
      "可用服务：" :: [("B", c9svcB), ("A", c9svcA)].map
        (fun p => "  - " ++ p.2.name) ∧
    ("  - " ++ c9svcA.name) ∈ ListServices [("B", c9svcB), ("A", c9svcA)] :=
  ⟨(listServices_prints_all_in_discovery_order
      [("B", c9svcB), ("A", c9svcA)]).1,
   (listServices_prints_all_in_discovery_order
      [("B", c9svcB), ("A", c9svcA)]).2 ("A", c9svcA) (by simp)⟩

/-! ## Build pipeline (BuildSystem/BuildScripts/Compiler.py `BuildService`,
Source/Programs/NutBuildTools/Core/Compiler.py `BuildService`)

The filesystem is modelled by the base names present in the unit's `Protos`,
`Sources` and `Configs` directories; toolchain behaviour (protoc outcome per
proto file, compiler detection, per-file compile outcome and link outcome) is
an oracle passed in.  Subprocess invocations and printed warnings become
events; the early `return`s on failure become the `BuildResult` value. -/

/-- Char-level counterpart of Python `str.endswith` (and `String.endsWith`);
defined over the character list so that it evaluates in the kernel. -/
def strEndsWith (s pat : String) : Bool := List.isSuffixOf pat.data s.data

/-- Char-level counterpart of Python `str.startswith`. -/
def strStartsWith (s pat : String) : Bool := List.isPrefixOf pat.data s.data

/-- ASCII lower-casing of one character (Python `str.lower` on the ASCII
range used by the sources). -/
def charToLower (c : Char) : Char :=
  if 65 ≤ c.toNat && c.toNat ≤ 90 then Char.ofNat (c.toNat + 32) else c

/-- Char-level counterpart of Python `str.lower`. -/
def strToLower (s : String) : String := String.mk (s.data.map charToLower)

/-- Split a character list on a separator character (used for path
components). -/
def splitOnChar (c : Char) (l : List Char) : List (List Char) :=
  l.foldr
    (fun x acc =>
      match acc with
      | [] => [[x]]
      | a :: as => if x = c then [] :: a :: as else (x :: a) :: as) [[]]

structure FsModel where
  protosDirFiles : List String
  sourcesDirFiles : List String
  configsDirFiles : List String
deriving DecidableEq

structure CompilerInfo where
  compilerPath : String
  linkerPath : String
  objExt : String
deriving DecidableEq

structure Toolchain where
  protocOk : String → Bool
  detected : Option CompilerInfo
  compileOk : String → Bool
  linkOk : Bool

inductive BuildEvent where
  | protoWarnMissing (f : String)
  | protocRun (f : String)
  | compileRun (f : String)
  | linkRun
  | copyConfig (f : String)
  | copyProto (f : String)
deriving DecidableEq

inductive BuildResult where
  | protoGenFailure
  | noSourceFiles
  | toolchainUnavailable
  | compileFailure
  | linkFailure
  | success
deriving DecidableEq

/-- `Path(p).name`: the last path component. -/
def pathBaseName (p : String) : String :=
  String.mk ((splitOnChar '/' p.data).getLastD p.data)

/-- `dir.glob("*<ext>")`: names with the given suffix.  Unlike the `glob`
module, `pathlib.Path.glob` does match dot-files, so no hidden-file
exclusion applies here. -/
def globMatches (ext : String) (name : String) : Bool :=
  strEndsWith name ext

/-- BuildScripts/Compiler.py line 37: `sources_dir.glob("*.cpp")` only. -/
def enumeratedSourcesBuildScripts (fs : FsModel) : List String :=
  fs.sourcesDirFiles.filter (globMatches ".cpp")

/-- Core/Compiler.py line 41: `glob("*.cpp") + glob("*.c") + glob("*.cc")`. -/
def enumeratedSourcesCore (fs : FsModel) : List String :=
  fs.sourcesDirFiles.filter (globMatches ".cpp") ++
    fs.sourcesDirFiles.filter (globMatches ".c") ++
    fs.sourcesDirFiles.filter (globMatches ".cc")

/-- The enumeration the claim describes: extensions .cpp, .c and .cc. -/
def specEnumeratedSources (fs : FsModel) : List String :=
  fs.sourcesDirFiles.filter
    (fun n =>
      strEndsWith n ".cpp" || strEndsWith n ".c" || strEndsWith n ".cc")

/-- BuildScripts/Compiler.py lines 17-34: iterate the declared proto files;
a missing file prints a warning and continues, a present file runs protoc and
a protoc failure returns from `BuildService` (abort flag). -/
def runProtoLoop (tc : Toolchain) (fs : FsModel) :
    List String → Bool × List BuildEvent
  | [] => (false, [])
  | p :: rest =>
      if pathBaseName p ∈ fs.protosDirFiles then
        if tc.protocOk p then
          let r := runProtoLoop tc fs rest
          (r.1, BuildEvent.protocRun p :: r.2)
        else (true, [BuildEvent.protocRun p])
      else
        let r := runProtoLoop tc fs rest
        (r.1, BuildEvent.protoWarnMissing p :: r.2)

/-- Core/Compiler.py lines 21-38: iterate `protos_dir.glob("*.proto")` (all
present, so the missing-file branch is unreachable); a protoc failure
aborts. -/
def runProtoLoopCore (tc : Toolchain) : List String → Bool × List BuildEvent
  | [] => (false, [])
  | p :: rest =>
      if tc.protocOk p then
        let r := runProtoLoopCore tc rest
        (r.1, BuildEvent.protocRun p :: r.2)
      else (true, [BuildEvent.protocRun p])

/-- Lines 50-63 (BuildScripts) / 54-74 (Core): compile each enumerated source;
the first failure returns from `BuildService`. -/
def runCompileLoop (tc : Toolchain) : List String → Bool × List BuildEvent
  | [] => (false, [])
  | f :: rest =>
      if tc.compileOk f then
        let r := runCompileLoop tc rest
        (r.1, BuildEvent.compileRun f :: r.2)
      else (true, [BuildEvent.compileRun f])

/-- Lines 80-90 (BuildScripts): copy each declared config/proto file that is
present on disk into the output directory. -/
def copyLoop (present : List String) (declared : List String)
    (mk : String → BuildEvent) : List BuildEvent :=
  declared.foldr
    (fun c acc =>
      if pathBaseName c ∈ present then mk (pathBaseName c) :: acc else acc) []

/-- Stages 2-6 of BuildScripts `BuildService` (after proto generation). -/
def buildAfterProtoBS (m : ServiceMeta) (fs : FsModel) (tc : Toolchain) :
    BuildResult × List BuildEvent :=
  let cppFiles := enumeratedSourcesBuildScripts fs
  if cppFiles.isEmpty then (BuildResult.noSourceFiles, [])
  else
    match tc.detected with
    | none => (BuildResult.toolchainUnavailable, [])
    | some _ =>
      let cr := runCompileLoop tc cppFiles
      if cr.1 then (BuildResult.compileFailure, cr.2)
      else if tc.linkOk then
        (BuildResult.success,
          cr.2 ++ [BuildEvent.linkRun] ++
            copyLoop fs.configsDirFiles m.configFiles BuildEvent.copyConfig ++
            copyLoop fs.protosDirFiles m.protoFiles BuildEvent.copyProto)
      else (BuildResult.linkFailure, cr.2 ++ [BuildEvent.linkRun])

/-- BuildSystem/BuildScripts/Compiler.py `BuildService`. -/
def BuildServiceBS (m : ServiceMeta) (fs : FsModel) (tc : Toolchain) :
    BuildResult × List BuildEvent :=
  let pr := runProtoLoop tc fs m.protoFiles
  if pr.1 then (BuildResult.protoGenFailure, pr.2)
  else
    let rest := buildAfterProtoBS m fs tc
    (rest.1, pr.2 ++ rest.2)

/-- Stages 2-5 of Core `BuildService` (after proto generation; the Core
variant does not copy configs/protos). -/
def buildAfterProtoCore (fs : FsModel) (tc : Toolchain) :
    BuildResult × List BuildEvent :=
  let cppFiles := enumeratedSourcesCore fs
  if cppFiles.isEmpty then (BuildResult.noSourceFiles, [])
  else
    match tc.detected with
    | none => (BuildResult.toolchainUnavailable, [])
    | some _ =>
      let cr := runCompileLoop tc cppFiles
      if cr.1 then (BuildResult.compileFailure, cr.2)
      else if tc.linkOk then
        (BuildResult.success, cr.2 ++ [BuildEvent.linkRun])
      else (BuildResult.linkFailure, cr.2 ++ [BuildEvent.linkRun])

/-- Source/Programs/NutBuildTools/Core/Compiler.py `BuildService`. -/
def BuildServiceCore (fs : FsModel) (tc : Toolchain) :
    BuildResult × List BuildEvent :=
  let pr := runProtoLoopCore tc (fs.protosDirFiles.filter (globMatches ".proto"))
  if pr.1 then (BuildResult.protoGenFailure, pr.2)
  else
    let rest := buildAfterProtoCore fs tc
    (rest.1, pr.2 ++ rest.2)

theorem runProtoLoop_no_abort (tc : Toolchain) (fs : FsModel)
    (l : List String)
    (hok : ∀ q ∈ l, pathBaseName q ∈ fs.protosDirFiles → tc.protocOk q = true) :
    (runProtoLoop tc fs l).1 = false := by
  induction l with
  | nil => rfl
  | cons p rest ih =>
    have ihr := ih (fun q hq => hok q (List.mem_cons_of_mem p hq))
    by_cases hp : pathBaseName p ∈ fs.protosDirFiles
    · have := hok p (List.mem_cons_self p rest) hp
      simp [runProtoLoop, hp, this, ihr]
    · simp [runProtoLoop, hp, ihr]

theorem runProtoLoop_warn_of_missing (tc : Toolchain) (fs : FsModel)
    (l : List String) (p : String) (hp : p ∈ l)
    (hmiss : pathBaseName p ∉ fs.protosDirFiles)
    (hok : ∀ q ∈ l, pathBaseName q ∈ fs.protosDirFiles → tc.protocOk q = true) :
    BuildEvent.protoWarnMissing p ∈ (runProtoLoop tc fs l).2 := by
  induction l with
  | nil => simp at hp
  | cons q rest ih =>
    rcases List.mem_cons.mp hp with h | h
    · subst h
      simp [runProtoLoop, hmiss]
    · have ihr := ih h (fun r hr => hok r (List.mem_cons_of_mem q hr))
      by_cases hq : pathBaseName q ∈ fs.protosDirFiles
      · have := hok q (List.mem_cons_self q rest) hq
        simp [runProtoLoop, hq, this, ihr]
      · simp [runProtoLoop, hq, ihr]

theorem runProtoLoop_abort_of_failure (tc : Toolchain) (fs : FsModel)
    (l : List String) (q : String) (hq : q ∈ l)
    (hpres : pathBaseName q ∈ fs.protosDirFiles)
    (hfail : tc.protocOk q = false) :
    (runProtoLoop tc fs l).1 = true := by
  induction l with
  | nil => simp at hq
  | cons p rest ih =>
    rcases List.mem_cons.mp hq with h | h
    · subst h
      by_cases hrun : tc.protocOk q
      · rw [hrun] at hfail; exact absurd hfail (by simp)
      · simp [runProtoLoop, hpres, hrun]
    · have ihr := ih h
      by_cases hp : pathBaseName p ∈ fs.protosDirFiles
      · by_cases hrun : tc.protocOk p
        · simp [runProtoLoop, hp, hrun, ihr]
        · simp [runProtoLoop, hp, hrun]
      · simp [runProtoLoop, hp, ihr]

theorem runProtoLoop_no_compile_events (tc : Toolchain) (fs : FsModel)
    (l : List String) (f : String) :
    BuildEvent.compileRun f ∉ (runProtoLoop tc fs l).2 := by
  induction l with
  | nil => simp [runProtoLoop]
  | cons p rest ih =>
    by_cases hp : pathBaseName p ∈ fs.protosDirFiles
    · by_cases hrun : tc.protocOk p
      · simp [runProtoLoop, hp, hrun, ih]
      · simp [runProtoLoop, hp, hrun]
    · simp [runProtoLoop, hp, ih]

theorem runProtoLoopCore_no_compile_events (tc : Toolchain)
    (l : List String) (f : String) :
    BuildEvent.compileRun f ∉ (runProtoLoopCore tc l).2 := by
  induction l with
  | nil => simp [runProtoLoopCore]
  | cons p rest ih =>
    by_cases hrun : tc.protocOk p
    · simp [runProtoLoopCore, hrun, ih]
    · simp [runProtoLoopCore, hrun]

theorem runCompileLoop_head_event (tc : Toolchain) (f : String)
    (rest : List String) :
    BuildEvent.compileRun f ∈ (runCompileLoop tc (f :: rest)).2 := by
  by_cases hc : tc.compileOk f
  · simp [runCompileLoop, hc]
  · simp [runCompileLoop, hc]

def tcAllOk : Toolchain :=
  ⟨fun _ => true, some ⟨"g++", "g++", ".o"⟩, fun _ => true, true⟩

def c3fs : FsModel := ⟨[], ["main.c"], []⟩

def c3meta : ServiceMeta := ⟨"CUnit", [], [], none⟩

/-- C3 counterexample: a unit whose sources directory holds exactly `main.c`.
The claim's enumeration (.cpp/.c/.cc) is nonempty, but the BuildScripts
`BuildService` (cited by the claim) globs only `*.cpp`, finds nothing, and
aborts with NoSourceFiles even under a fully working toolchain. -/
theorem buildScripts_ignores_c_sources :
    specEnumeratedSources c3fs = ["main.c"] ∧
    enumeratedSourcesBuildScripts c3fs = [] ∧
    BuildServiceBS c3meta c3fs tcAllOk = (BuildResult.noSourceFiles, []) := by
  refine ⟨?_, ?_, ?_⟩ <;> rfl

theorem BuildServiceCore_no_abort (fs : FsModel) (tc : Toolchain)
    (h : (runProtoLoopCore tc
      (fs.protosDirFiles.filter (globMatches ".proto"))).1 = false) :
    BuildServiceCore fs tc =
      ((buildAfterProtoCore fs tc).1,
        (runProtoLoopCore tc
          (fs.protosDirFiles.filter (globMatches ".proto"))).2 ++
          (buildAfterProtoCore fs tc).2) := by
  simp only [BuildServiceCore, h]
  simp

theorem BuildServiceBS_no_abort (m : ServiceMeta) (fs : FsModel)
    (tc : Toolchain) (h : (runProtoLoop tc fs m.protoFiles).1 = false) :
    BuildServiceBS m fs tc =
      ((buildAfterProtoBS m fs tc).1,
        (runProtoLoop tc fs m.protoFiles).2 ++ (buildAfterProtoBS m fs tc).2) := by
  simp only [BuildServiceBS, h]
  simp

theorem buildAfterProtoCore_empty (fs : FsModel) (tc : Toolchain)
    (h : enumeratedSourcesCore fs = []) :
    buildAfterProtoCore fs tc = (BuildResult.noSourceFiles, []) := by
  simp only [buildAfterProtoCore, h]
  simp

theorem buildAfterProtoBS_empty (m : ServiceMeta) (fs : FsModel)
    (tc : Toolchain) (h : enumeratedSourcesBuildScripts fs = []) :
    buildAfterProtoBS m fs tc = (BuildResult.noSourceFiles, []) := by
  simp only [buildAfterProtoBS, h]
  simp

theorem runProtoLoopCore_no_link_events (tc : Toolchain) (l : List String) :
    BuildEvent.linkRun ∉ (runProtoLoopCore tc l).2 := by
  induction l with
  | nil => simp [runProtoLoopCore]
  | cons p rest ih =>
    by_cases hrun : tc.protocOk p
    · simp [runProtoLoopCore, hrun, ih]
    · simp [runProtoLoopCore, hrun]

theorem runProtoLoop_no_link_events (tc : Toolchain) (fs : FsModel)
    (l : List String) :
    BuildEvent.linkRun ∉ (runProtoLoop tc fs l).2 := by
  induction l with
  | nil => simp [runProtoLoop]
  | cons p rest ih =>
    by_cases hp : pathBaseName p ∈ fs.protosDirFiles
    · by_cases hrun : tc.protocOk p
      · simp [runProtoLoop, hp, hrun, ih]
      · simp [runProtoLoop, hp, hrun]
    · simp [runProtoLoop, hp, ih]

/-- C3 (amended): the Core variant enumerates sources with extensions
.cpp/.c/.cc while the BuildScripts variant enumerates only .cpp; in both, an
empty enumeration aborts the unit with NoSourceFiles before any compiler
invocation (no compile or link command is issued), provided proto generation
did not already abort. -/
theorem compile_stage_enumeration_and_abort (fs : FsModel) (tc : Toolchain)
    (m : ServiceMeta)
    (hprotoBS : (runProtoLoop tc fs m.protoFiles).1 = false)
    (hprotoCore :
      (runProtoLoopCore tc (fs.protosDirFiles.filter (globMatches ".proto"))).1
        = false) :
    (∀ n, n ∈ enumeratedSourcesCore fs ↔
        n ∈ fs.sourcesDirFiles ∧
          (strEndsWith n ".cpp" = true ∨ strEndsWith n ".c" = true ∨
            strEndsWith n ".cc" = true)) ∧
    (∀ n, n ∈ enumeratedSourcesBuildScripts fs ↔
        n ∈ fs.sourcesDirFiles ∧ strEndsWith n ".cpp" = true) ∧
    (enumeratedSourcesCore fs = [] →
      (BuildServiceCore fs tc).1 = BuildResult.noSourceFiles ∧
      (∀ f, BuildEvent.compileRun f ∉ (BuildServiceCore fs tc).2) ∧
      BuildEvent.linkRun ∉ (BuildServiceCore fs tc).2) ∧
    (enumeratedSourcesBuildScripts fs = [] →
      (BuildServiceBS m fs tc).1 = BuildResult.noSourceFiles ∧
      (∀ f, BuildEvent.compileRun f ∉ (BuildServiceBS m fs tc).2) ∧
      BuildEvent.linkRun ∉ (BuildServiceBS m fs tc).2) := by
  refine ⟨?_, ?_, ?_, ?_⟩
  · intro n
    simp only [enumeratedSourcesCore, List.mem_append, List.mem_filter,
      globMatches]
    constructor
    · rintro ((⟨h1, h2⟩ | ⟨h1, h2⟩) | ⟨h1, h2⟩)
      · exact ⟨h1, Or.inl h2⟩
      · exact ⟨h1, Or.inr (Or.inl h2)⟩
      · exact ⟨h1, Or.inr (Or.inr h2)⟩
    · rintro ⟨h1, h2 | h2 | h2⟩
      · exact Or.inl (Or.inl ⟨h1, h2⟩)
      · exact Or.inl (Or.inr ⟨h1, h2⟩)
      · exact Or.inr ⟨h1, h2⟩
  · intro n
    simp only [enumeratedSourcesBuildScripts, List.mem_filter, globMatches]
  · intro hempty
    rw [BuildServiceCore_no_abort fs tc hprotoCore,
      buildAfterProtoCore_empty fs tc hempty]
    refine ⟨rfl, ?_, ?_⟩
    · intro f
      simp only [List.append_nil]
      exact runProtoLoopCore_no_compile_events tc _ f
    · simp only [List.append_nil]
      exact runProtoLoopCore_no_link_events tc _
  · intro hempty
    rw [BuildServiceBS_no_abort m fs tc hprotoBS,
      buildAfterProtoBS_empty m fs tc hempty]
    refine ⟨rfl, ?_, ?_⟩
    · intro f
      simp only [List.append_nil]
      exact runProtoLoop_no_compile_events tc fs _ f
    · simp only [List.append_nil]
      exact runProtoLoop_no_link_events tc fs _

theorem compile_stage_enumeration_and_abort_witness :
    (runProtoLoop tcAllOk c3fs c3meta.protoFiles).1 = false ∧
    (runProtoLoopCore tcAllOk
      (c3fs.protosDirFiles.filter (globMatches ".proto"))).1 = false ∧
    (enumeratedSourcesBuildScripts c3fs = [] →
      (BuildServiceBS c3meta c3fs tcAllOk).1 = BuildResult.noSourceFiles ∧
      (∀ f, BuildEvent.compileRun f ∉ (BuildServiceBS c3meta c3fs tcAllOk).2) ∧
      BuildEvent.linkRun ∉ (BuildServiceBS c3meta c3fs tcAllOk).2) :=
  ⟨rfl, rfl,
   (compile_stage_enumeration_and_abort c3fs tcAllOk c3meta rfl rfl).2.2.2⟩

theorem BuildServiceBS_abort (m : ServiceMeta) (fs : FsModel) (tc : Toolchain)
    (h : (runProtoLoop tc fs m.protoFiles).1 = true) :
    BuildServiceBS m fs tc =
      (BuildResult.protoGenFailure, (runProtoLoop tc fs m.protoFiles).2) := by
  simp only [BuildServiceBS, h]
  simp

theorem buildAfterProtoBS_ne_protoGenFailure (m : ServiceMeta) (fs : FsModel)
    (tc : Toolchain) :
    (buildAfterProtoBS m fs tc).1 ≠ BuildResult.protoGenFailure := by
  by_cases h1 : (enumeratedSourcesBuildScripts fs).isEmpty
  · simp [buildAfterProtoBS, h1]
  · cases hd : tc.detected with
    | none => simp [buildAfterProtoBS, h1, hd]
    | some c =>
      by_cases h2 : (runCompileLoop tc (enumeratedSourcesBuildScripts fs)).1
      · simp [buildAfterProtoBS, h1, hd, h2]
      · by_cases h3 : tc.linkOk
        · simp [buildAfterProtoBS, h1, hd, h2, h3]
        · simp [buildAfterProtoBS, h1, hd, h2, h3]

theorem buildAfterProtoBS_compile_head (m : ServiceMeta) (fs : FsModel)
    (tc : Toolchain) (f : String) (rest : List String)
    (henum : enumeratedSourcesBuildScripts fs = f :: rest)
    (hdet : tc.detected.isSome = true) :
    BuildEvent.compileRun f ∈ (buildAfterProtoBS m fs tc).2 := by
  cases hd : tc.detected with
  | none => rw [hd] at hdet; simp at hdet
  | some c =>
    have hhead := runCompileLoop_head_event tc f rest
    simp only [buildAfterProtoBS, henum, List.isEmpty_cons, Bool.false_eq_true,
      if_false, hd]
    by_cases h2 : (runCompileLoop tc (f :: rest)).1 = true
    · rw [if_pos h2]
      exact hhead
    · rw [if_neg h2]
      by_cases h3 : tc.linkOk = true
      · rw [if_pos h3]
        simp only [List.append_assoc, List.mem_append]
        exact Or.inl hhead
      · rw [if_neg h3]
        simp only [List.mem_append]
        exact Or.inl hhead

/-- C4: during Build of a unit declaring proto files, a declared proto file
missing on disk produces only a warning and does not abort the unit — the
build still proceeds to compile the sources — whereas a failing protoc
invocation aborts the unit's build before any compilation. -/
theorem proto_missing_warns_failure_aborts
    (m : ServiceMeta) (fs : FsModel) (tc : Toolchain) (p : String)
    (hp : p ∈ m.protoFiles)
    (hmiss : pathBaseName p ∉ fs.protosDirFiles)
    (hok : ∀ q ∈ m.protoFiles, pathBaseName q ∈ fs.protosDirFiles →
      tc.protocOk q = true) :
    BuildEvent.protoWarnMissing p ∈ (BuildServiceBS m fs tc).2 ∧
    (BuildServiceBS m fs tc).1 ≠ BuildResult.protoGenFailure ∧
    (∀ f rest, enumeratedSourcesBuildScripts fs = f :: rest →
      tc.detected.isSome = true →
      BuildEvent.compileRun f ∈ (BuildServiceBS m fs tc).2) ∧
    (∀ tc2 : Toolchain, ∀ q ∈ m.protoFiles,
      pathBaseName q ∈ fs.protosDirFiles → tc2.protocOk q = false →
      (BuildServiceBS m fs tc2).1 = BuildResult.protoGenFailure ∧
      ∀ f, BuildEvent.compileRun f ∉ (BuildServiceBS m fs tc2).2) := by
  have hnoab := runProtoLoop_no_abort tc fs m.protoFiles hok
  have hshape := BuildServiceBS_no_abort m fs tc hnoab
  refine ⟨?_, ?_, ?_, ?_⟩
  · rw [hshape]
    simp only [List.mem_append]
    exact Or.inl (runProtoLoop_warn_of_missing tc fs m.protoFiles p hp hmiss hok)
  · rw [hshape]
    exact buildAfterProtoBS_ne_protoGenFailure m fs tc
  · intro f rest henum hdet
    rw [hshape]
    simp only [List.mem_append]
    exact Or.inr (buildAfterProtoBS_compile_head m fs tc f rest henum hdet)
  · intro tc2 q hq hqpres hqfail
    have habort := runProtoLoop_abort_of_failure tc2 fs m.protoFiles q hq hqpres hqfail
    rw [BuildServiceBS_abort m fs tc2 habort]
    exact ⟨rfl, fun f => runProtoLoop_no_compile_events tc2 fs m.protoFiles f⟩

def c4meta : ServiceMeta := ⟨"PSvc", ["foo.proto", "bar.proto"], [], none⟩

def c4fs : FsModel := ⟨["bar.proto"], ["main.cpp"], []⟩

def tcNoProtoc : Toolchain :=
  ⟨fun _ => false, some ⟨"g++", "g++", ".o"⟩, fun _ => true, true⟩

theorem proto_missing_warns_failure_aborts_witness :
    "foo.proto" ∈ c4meta.protoFiles ∧
    pathBaseName "foo.proto" ∉ c4fs.protosDirFiles ∧
    (BuildEvent.protoWarnMissing "foo.proto" ∈
        (BuildServiceBS c4meta c4fs tcAllOk).2 ∧
      (BuildServiceBS c4meta c4fs tcAllOk).1 ≠ BuildResult.protoGenFailure ∧
      BuildEvent.compileRun "main.cpp" ∈ (BuildServiceBS c4meta c4fs tcAllOk).2 ∧
      (BuildServiceBS c4meta c4fs tcNoProtoc).1 = BuildResult.protoGenFailure) := by
  have h := proto_missing_warns_failure_aborts c4meta c4fs tcAllOk "foo.proto"
    (by simp [c4meta]) (by decide)
    (fun q hq hpres => rfl)
  exact ⟨by simp [c4meta], by decide,
    h.1, h.2.1,
    h.2.2.1 "main.cpp" [] rfl rfl,
    (h.2.2.2 tcNoProtoc "bar.proto" (by simp [c4meta]) (by decide) rfl).1⟩

/-! ## Engine entry point (BuildSystem/BuildScripts/BuildEngine.py, lines
61-75)

`__main__` dispatches on `sys.argv[1]` (lower-cased); `build X` builds one
named unit if present, `build` builds all.  `BuildService` swallows every
failure (it prints a diagnostic and plainly returns), no code path calls
`sys.exit`, so the interpreter always terminates the process with exit code
0.  The embedding returns the exit code together with the per-unit build
results so the relationship between failures and the exit code can be
stated. -/

def engineBuild (services : List (String × ServiceMeta))
    (arg : Option String) (fsOf : String → FsModel) (tc : Toolchain) :
    List (String × BuildResult) :=
  match arg with
  | some nm =>
      match dictLookup services nm with
      | some m => [(nm, (BuildServiceBS m (fsOf nm) tc).1)]
      | none => []
  | none =>
      services.map (fun p => (p.1, (BuildServiceBS p.2 (fsOf p.1) tc).1))

def buildEngineMain (argv : List String)
    (services : List (String × ServiceMeta)) (fsOf : String → FsModel)
    (tc : Toolchain) : Nat × List (String × BuildResult) :=
  match argv with
  | [] => (0, [])
  | cmd :: rest =>
      let arg := rest.head?
      if strToLower cmd = "build" then (0, engineBuild services arg fsOf tc)
      else if strToLower cmd = "clean" then (0, [])
      else if strToLower cmd = "package" then (0, [])
      else (0, [])

def c8meta : ServiceMeta := ⟨"Svc", [], [], none⟩

def c8services : List (String × ServiceMeta) := [("Svc", c8meta)]

def c8fsOf : String → FsModel := fun _ => ⟨[], ["main.cpp"], []⟩

def tcCompileFails : Toolchain :=
  ⟨fun _ => true, some ⟨"g++", "g++", ".o"⟩, fun _ => false, true⟩

/-- C8 counterexample: building all units where the only unit's compilation
fails still terminates the process with exit code 0 — the claim's "nonzero
exit code when any unit's build failed" is false on this code. -/
theorem build_exit_code_always_zero_counterexample :
    (buildEngineMain ["build"] c8services c8fsOf tcCompileFails).1 = 0 ∧
    ("Svc", BuildResult.compileFailure) ∈
      (buildEngineMain ["build"] c8services c8fsOf tcCompileFails).2 := by
  constructor
  · rfl
  · decide

/-- C8 (amended): the build command (one named unit or all) always
terminates the process with exit code 0, regardless of per-unit build
outcomes; failures are reported only through printed diagnostics. -/
theorem build_exit_code_always_zero (argv : List String)
    (services : List (String × ServiceMeta)) (fsOf : String → FsModel)
    (tc : Toolchain) :
    (buildEngineMain argv services fsOf tc).1 = 0 := by
  cases argv with
  | nil => rfl
  | cons cmd rest =>
    simp only [buildEngineMain]
    by_cases h1 : strToLower cmd = "build"
    · simp [h1]
    · by_cases h2 : strToLower cmd = "clean"
      · simp [h1, h2]
      · by_cases h3 : strToLower cmd = "package"
        · simp [h1, h2, h3]
        · simp [h1, h2, h3]

/-! ## File collection (src/Tools/ProjectGenerator/core/file_collector.py)

`FileCollector.CollectFiles` walks the four canonical subdirectories
(`Sources`, `Meta`, `Configs`, `Protos`), skipping non-regular files and
dot-files, classifies each file by `_DetermineFileGroup` (extension table
with directory-context overrides) and then only adds the file when its
group is in that directory's allowed set; `_CollectProjectFiles` separately
adds project files from the unit root.  Directories are modelled as lists of
names with a regular-file flag (a missing directory is the empty list). -/

inductive FileGroup where
  | headers
  | sources
  | meta
  | configs
deriving DecidableEq

def HEADER_EXTENSIONS : List String := [".h", ".hpp", ".hxx", ".hh"]

def SOURCE_EXTENSIONS : List String := [".cpp", ".cxx", ".cc", ".c", ".cs"]

def CONFIG_EXTENSIONS : List String := [".json", ".xml", ".yaml", ".yml", ".ini"]

def META_EXTENSIONS : List String := [".py", ".cs", ".md", ".txt"]

def PROTO_EXTENSIONS : List String := [".proto"]

/-- `pathlib.PurePath.suffix`: the final `.xyz` of the last component, empty
for no dot, a bare leading dot, or a trailing dot. -/
def fileSuffix (name : String) : String :=
  let cs := name.data
  let parts := splitOnChar '.' cs
  if parts.length ≤ 1 then ""
  else
    let lastPart := parts.getLastD []
    let i := cs.length - lastPart.length - 1
    if 0 < i ∧ i < cs.length - 1 then String.mk ('.' :: lastPart) else ""

/-- file_collector.py lines 115-143 (`_DetermineFileGroup`). -/
def DetermineFileGroup (ext : String) (directoryName : String) : FileGroup :=
  if strToLower directoryName = "meta" ∧ ext ∈ META_EXTENSIONS then
    FileGroup.meta
  else if strToLower directoryName = "configs" ∧ ext ∈ CONFIG_EXTENSIONS then
    FileGroup.configs
  else if strToLower directoryName = "protos" then FileGroup.meta
  else if ext ∈ HEADER_EXTENSIONS then FileGroup.headers
  else if ext ∈ SOURCE_EXTENSIONS then FileGroup.sources
  else if ext ∈ CONFIG_EXTENSIONS then FileGroup.configs
  else if ext ∈ PROTO_EXTENSIONS then FileGroup.meta
  else FileGroup.meta

structure FsFile where
  fileName : String
  isRegularFile : Bool
deriving DecidableEq

/-- One iteration of the `_CollectDirectoryFiles` loop (lines 86-103): skip
non-regular files and dot-files, classify, and keep the file only when its
group is allowed for this directory. -/
def classifyFile (directoryName : String) (allowed : List FileGroup)
    (f : FsFile) : Option (String × FileGroup) :=
  if f.isRegularFile = false then none
  else if strStartsWith f.fileName "." then none
  else if DetermineFileGroup (strToLower (fileSuffix f.fileName))
      directoryName ∈ allowed then
    some (f.fileName,
      DetermineFileGroup (strToLower (fileSuffix f.fileName)) directoryName)
  else none

def collectDirectoryFiles (directoryName : String) (files : List FsFile)
    (allowed : List FileGroup) : List (String × FileGroup) :=
  files.filterMap (classifyFile directoryName allowed)

/-- `_CollectProjectFiles` (lines 105-113). -/
def collectProjectFiles (rootFiles : List FsFile) :
    List (String × FileGroup) :=
  rootFiles.filterMap
    (fun f =>
      if f.isRegularFile = false then none
      else if strToLower (fileSuffix f.fileName) ∈
          [".csproj", ".vcxproj", ".pbxproj"] then
        some (f.fileName, FileGroup.meta)
      else none)

structure UnitDirs where
  sourcesFiles : List FsFile
  metaFiles : List FsFile
  configsFiles : List FsFile
  protosFiles : List FsFile
  rootFiles : List FsFile
deriving DecidableEq

/-- `FileCollector.CollectFiles` (lines 27-76). -/
def CollectFiles (u : UnitDirs) : List (String × FileGroup) :=
  collectDirectoryFiles "Sources" u.sourcesFiles
      [FileGroup.headers, FileGroup.sources] ++
    collectDirectoryFiles "Meta" u.metaFiles [FileGroup.meta] ++
    collectDirectoryFiles "Configs" u.configsFiles [FileGroup.configs] ++
    collectDirectoryFiles "Protos" u.protosFiles [FileGroup.meta] ++
    collectProjectFiles u.rootFiles

def c6unit : UnitDirs := ⟨[⟨"foo.json", true⟩], [], [], [], []⟩

/-- C6 counterexample: `foo.json` is a regular, non-dot file under `Sources`,
its classification is Configs, which is not in the Sources directory's
allowed set {Headers, Sources}, so the collector assigns it to no FileGroup
at all — the classification is not total over collected output. -/
theorem collector_skips_disallowed_file :
    (⟨"foo.json", true⟩ : FsFile) ∈ c6unit.sourcesFiles ∧
    strStartsWith "foo.json" "." = false ∧
    DetermineFileGroup (strToLower (fileSuffix "foo.json")) "Sources" =
      FileGroup.configs ∧
    (CollectFiles c6unit).countP (fun p => p.1 = "foo.json") = 0 := by
  refine ⟨by decide, by decide, by decide, by decide⟩

theorem classifyFile_eq_some (directoryName : String)
    (allowed : List FileGroup) (a : FsFile) (p : String × FileGroup)
    (h : classifyFile directoryName allowed a = some p) :
    a.isRegularFile = true ∧ strStartsWith a.fileName "." = false ∧
    p = (a.fileName,
      DetermineFileGroup (strToLower (fileSuffix a.fileName)) directoryName) ∧
    p.2 ∈ allowed := by
  unfold classifyFile at h
  by_cases h1 : a.isRegularFile = false
  · rw [if_pos h1] at h
    exact absurd h (by simp)
  · rw [if_neg h1] at h
    by_cases h2 : strStartsWith a.fileName "." = true
    · rw [if_pos h2] at h
      exact absurd h (by simp)
    · rw [if_neg h2] at h
      by_cases h3 : DetermineFileGroup (strToLower (fileSuffix a.fileName))
          directoryName ∈ allowed
      · rw [if_pos h3] at h
        have hp := Option.some.inj h
        refine ⟨by simpa using h1, by simpa using h2, hp.symm, ?_⟩
        rw [← hp]
        exact h3
      · rw [if_neg h3] at h
        exact absurd h (by simp)

/-- C6 (amended): the classifier `_DetermineFileGroup` is total — every file
receives exactly one FileGroup, and an extension matching no table entry
defaults to Meta — but the collector retains a file only when its classified
group is in the containing directory's allowed set; every collected entry is
a regular non-dot file classified to its recorded (single) group, every
regular non-dot file whose group is allowed is collected, and a file whose
group is not allowed is silently skipped (no entry at all). -/
theorem collector_classification (directoryName : String)
    (files : List FsFile) (allowed : List FileGroup) (f : FsFile)
    (hreg : f.isRegularFile = true)
    (hdot : strStartsWith f.fileName "." = false) :
    (∀ p ∈ collectDirectoryFiles directoryName files allowed,
      p.2 = DetermineFileGroup (strToLower (fileSuffix p.1)) directoryName ∧
      p.2 ∈ allowed) ∧
    (f ∈ files →
      DetermineFileGroup (strToLower (fileSuffix f.fileName)) directoryName
          ∈ allowed →
      (f.fileName,
        DetermineFileGroup (strToLower (fileSuffix f.fileName)) directoryName)
        ∈ collectDirectoryFiles directoryName files allowed) ∧
    (DetermineFileGroup (strToLower (fileSuffix f.fileName)) directoryName
          ∉ allowed →
      (∀ a ∈ files, a.fileName = f.fileName → a = f) →
      ∀ g, (f.fileName, g) ∉
        collectDirectoryFiles directoryName files allowed) ∧
    (∀ ext dn, ext ∉ HEADER_EXTENSIONS → ext ∉ SOURCE_EXTENSIONS →
      ext ∉ CONFIG_EXTENSIONS → ext ∉ PROTO_EXTENSIONS →
      DetermineFileGroup ext dn = FileGroup.meta) := by
  refine ⟨?_, ?_, ?_, ?_⟩
  · intro p hp
    rcases List.mem_filterMap.mp hp with ⟨a, _, hfa⟩
    rcases classifyFile_eq_some directoryName allowed a p hfa with
      ⟨_, _, hpval, hpin⟩
    constructor
    · rw [hpval]
    · exact hpin
  · intro hmem hallow
    apply List.mem_filterMap.mpr
    refine ⟨f, hmem, ?_⟩
    unfold classifyFile
    rw [if_neg (by rw [hreg]; simp), if_neg (by rw [hdot]; simp),
      if_pos hallow]
  · intro hallow huniq g hg
    rcases List.mem_filterMap.mp hg with ⟨a, hain, hfa⟩
    rcases classifyFile_eq_some directoryName allowed a (f.fileName, g) hfa
      with ⟨_, _, hpval, hpin⟩
    have hname : a.fileName = f.fileName :=
      ((Prod.mk.injEq _ _ _ _ ▸ hpval).1).symm
    have haf : a = f := huniq a hain hname
    rw [hpval] at hpin
    simp only [haf] at hpin
    exact hallow hpin
  · intro ext dn h1 h2 h3 h4
    unfold DetermineFileGroup
    by_cases c1 : strToLower dn = "meta" ∧ ext ∈ META_EXTENSIONS
    · rw [if_pos c1]
    · rw [if_neg c1]
      by_cases c2 : strToLower dn = "configs" ∧ ext ∈ CONFIG_EXTENSIONS
      · exact absurd c2.2 h3
      · rw [if_neg c2]
        by_cases c3 : strToLower dn = "protos"
        · rw [if_pos c3]
        · rw [if_neg c3, if_neg h1, if_neg h2, if_neg h3, if_neg h4]

theorem collector_classification_witness :
    ((⟨"A.cpp", true⟩ : FsFile).isRegularFile = true) ∧
    (strStartsWith "A.cpp" "." = false) ∧
    ((⟨"A.cpp", true⟩ : FsFile) ∈ [(⟨"A.cpp", true⟩ : FsFile)] →
      DetermineFileGroup (strToLower (fileSuffix "A.cpp")) "Sources"
          ∈ [FileGroup.headers, FileGroup.sources] →
      ("A.cpp",
        DetermineFileGroup (strToLower (fileSuffix "A.cpp")) "Sources")
        ∈ collectDirectoryFiles "Sources" [⟨"A.cpp", true⟩]
            [FileGroup.headers, FileGroup.sources]) :=
  ⟨rfl, by decide,
   (collector_classification "Sources" [⟨"A.cpp", true⟩]
      [FileGroup.headers, FileGroup.sources] ⟨"A.cpp", true⟩ rfl
      (by decide)).2.1⟩

/-! ## Project info (src/Tools/ProjectGenerator/core/project_info.py)

Paths are modelled as component lists; `Path.relative_to` raises `ValueError`
when the base is not a prefix, and Python dict indexing `self.files[group]`
raises `KeyError` on a missing key — both become `Except.error`.  The
filesystem's `Path.exists` is an oracle function. -/

inductive ProjectType where
  | executable
  | staticLibrary
  | dynamicLibrary
  | csharpExecutable
  | csharpLibrary
deriving DecidableEq, Fintype

structure FileInfo where
  path : List String
  relativePath : List String
  group : FileGroup
  fileType : String
deriving DecidableEq

structure ProjectInfo where
  name : String
  path : List String
  projectType : ProjectType
  groupName : String
  files : List (FileGroup × List FileInfo)
  includeDirs : List (List String)
  dependencies : List String
deriving DecidableEq

/-- Iteration order of the `FileGroup` enum (declaration order). -/
def ALL_FILE_GROUPS : List FileGroup :=
  [FileGroup.headers, FileGroup.sources, FileGroup.meta, FileGroup.configs]

def filesLookup (fs : List (FileGroup × List FileInfo)) (g : FileGroup) :
    Option (List FileInfo) :=
  (fs.find? (fun p => p.1 = g)).map (fun p => p.2)

def filesKeys (fs : List (FileGroup × List FileInfo)) : List FileGroup :=
  fs.map (fun p => p.1)

/-- `__post_init__` (lines 62-67): ensure every file group key exists. -/
def postInit (p : ProjectInfo) : ProjectInfo :=
  { p with
    files := ALL_FILE_GROUPS.foldl
      (fun fs g => if fs.any (fun q => q.1 = g) then fs else fs ++ [(g, [])])
      p.files }

/-- Dataclass construction (`ProjectInfo(...)` runs `__post_init__`). -/
def ProjectInfo.create (name : String) (path : List String)
    (projectType : ProjectType) (groupName : String) : ProjectInfo :=
  postInit ⟨name, path, projectType, groupName, [], [], []⟩

def projectIsCsharp (p : ProjectInfo) : Bool :=
  p.projectType = ProjectType.csharpExecutable ||
    p.projectType = ProjectType.csharpLibrary

def TYPE_MAP : List (String × String) :=
  [(".h", "sourcecode.c.h"), (".hpp", "sourcecode.cpp.h"),
   (".hxx", "sourcecode.cpp.h"), (".cpp", "sourcecode.cpp.cpp"),
   (".cxx", "sourcecode.cpp.cpp"), (".cc", "sourcecode.cpp.cpp"),
   (".c", "sourcecode.c.c"), (".cs", "sourcecode.cs"),
   (".py", "text.script.python"), (".json", "text.json"),
   (".xml", "text.xml"), (".proto", "text"), (".md", "text"),
   (".txt", "text.plain")]

/-- `_GetFileType` (lines 103-125). -/
def getFileType (path : List String) : String :=
  match dictLookup TYPE_MAP (strToLower (fileSuffix (path.getLastD ""))) with
  | some t => t
  | none => "text"

/-- `Path.relative_to`: drop the base prefix or raise. -/
def relativeTo (p root : List String) : Option (List String) :=
  if root.isPrefixOf p then some (p.drop root.length) else none

def filesAppend (fs : List (FileGroup × List FileInfo)) (g : FileGroup)
    (fi : FileInfo) : Except String (List (FileGroup × List FileInfo)) :=
  if fs.any (fun q => q.1 = g) then
    Except.ok (fs.map (fun q => if q.1 = g then (q.1, q.2 ++ [fi]) else q))
  else Except.error "KeyError"

/-- `AddFile` (lines 69-86). -/
def AddFile (p : ProjectInfo) (fileExists : List String → Bool)
    (filePath : List String) (g : FileGroup) (projectRoot : List String) :
    Except String (ProjectInfo × Bool) :=
  if fileExists filePath = false then Except.ok (p, false)
  else
    match relativeTo filePath projectRoot with
    | none => Except.error "ValueError"
    | some rel =>
      match filesAppend p.files g ⟨filePath, rel, g, getFileType filePath⟩ with
      | Except.ok fs2 => Except.ok ({ p with files := fs2 }, true)
      | Except.error e => Except.error e

def getFiles (p : ProjectInfo) (g : FileGroup) :
    Except String (List FileInfo) :=
  match filesLookup p.files g with
  | some l => Except.ok l
  | none => Except.error "KeyError"

/-- `GetAllFiles` (lines 88-93). -/
def GetAllFiles (p : ProjectInfo) : Except String (List FileInfo) :=
  ALL_FILE_GROUPS.foldl
    (fun acc g =>
      match acc, getFiles p g with
      | Except.ok l, Except.ok l2 => Except.ok (l ++ l2)
      | Except.error e, _ => Except.error e
      | Except.ok _, Except.error e => Except.error e)
    (Except.ok [])

def GetSourceFiles (p : ProjectInfo) : Except String (List FileInfo) :=
  getFiles p FileGroup.sources

def GetHeaderFiles (p : ProjectInfo) : Except String (List FileInfo) :=
  getFiles p FileGroup.headers

def HasAllGroups (p : ProjectInfo) : Prop :=
  ∀ g : FileGroup, (filesLookup p.files g).isSome = true

theorem filesLookup_isSome_iff (fs : List (FileGroup × List FileInfo))
    (g : FileGroup) :
    (filesLookup fs g).isSome = true ↔ g ∈ filesKeys fs := by
  induction fs with
  | nil => simp [filesLookup, filesKeys]
  | cons q rest ih =>
    by_cases hq : q.1 = g
    · simp [filesLookup, filesKeys, List.find?_cons, hq]
    · have hgq : ¬ (g = q.1) := fun hh => hq hh.symm
      have hstep : filesLookup (q :: rest) g = filesLookup rest g := by
        simp [filesLookup, List.find?_cons, hq]
      rw [hstep, ih]
      simp [filesKeys, hgq]

theorem postInit_step_keys (fs : List (FileGroup × List FileInfo))
    (g0 g : FileGroup) (h : g ∈ filesKeys fs ∨ g = g0) :
    g ∈ filesKeys
      (if fs.any (fun q => q.1 = g0) then fs else fs ++ [(g0, [])]) := by
  by_cases hany : fs.any (fun q => q.1 = g0)
  · rw [if_pos hany]
    rcases h with h | h
    · exact h
    · subst h
      rcases List.any_eq_true.mp hany with ⟨q, hq, hq2⟩
      exact List.mem_map.mpr ⟨q, hq, by simpa using hq2⟩
  · rw [if_neg hany]
    simp only [filesKeys, List.map_append, List.mem_append]
    rcases h with h | h
    · exact Or.inl h
    · right
      simp [h]

theorem postInit_fold_keys (gs : List FileGroup)
    (fs : List (FileGroup × List FileInfo)) (g : FileGroup)
    (h : g ∈ filesKeys fs ∨ g ∈ gs) :
    g ∈ filesKeys (gs.foldl
      (fun fs2 g2 =>
        if fs2.any (fun q => q.1 = g2) then fs2 else fs2 ++ [(g2, [])])
      fs) := by
  induction gs generalizing fs with
  | nil =>
    rcases h with h | h
    · exact h
    · simp at h
  | cons g0 rest ih =>
    simp only [List.foldl_cons]
    apply ih
    rcases h with h | h
    · exact Or.inl (postInit_step_keys fs g0 g (Or.inl h))
    · rcases List.mem_cons.mp h with h | h
      · exact Or.inl (postInit_step_keys fs g0 g (Or.inr h))
      · exact Or.inr h

theorem postInit_hasAllGroups (p : ProjectInfo) : HasAllGroups (postInit p) := by
  intro g
  rw [filesLookup_isSome_iff]
  have hg : g ∈ ALL_FILE_GROUPS := by cases g <;> simp [ALL_FILE_GROUPS]
  exact postInit_fold_keys ALL_FILE_GROUPS p.files g (Or.inr hg)

theorem filesAppend_keys (fs : List (FileGroup × List FileInfo))
    (g : FileGroup) (fi : FileInfo) (fs2 : List (FileGroup × List FileInfo))
    (h : filesAppend fs g fi = Except.ok fs2) :
    filesKeys fs2 = filesKeys fs := by
  unfold filesAppend at h
  by_cases hany : fs.any (fun q => q.1 = g)
  · rw [if_pos hany] at h
    injection h with h2
    rw [← h2]
    simp only [filesKeys, List.map_map]
    apply List.map_congr_left
    intro q _
    by_cases hq : q.1 = g <;> simp [hq]
  · rw [if_neg hany] at h
    cases h

theorem getAllFiles_ok_aux (p : ProjectInfo) (gs : List FileGroup)
    (hgs : ∀ g ∈ gs, ∃ l, getFiles p g = Except.ok l) (acc : List FileInfo) :
    ∃ l, gs.foldl
      (fun acc2 g =>
        match acc2, getFiles p g with
        | Except.ok l, Except.ok l2 => Except.ok (l ++ l2)
        | Except.error e, _ => Except.error e
        | Except.ok _, Except.error e => Except.error e)
      (Except.ok acc) = Except.ok l := by
  induction gs generalizing acc with
  | nil => exact ⟨acc, rfl⟩
  | cons g rest ih =>
    rcases hgs g (List.mem_cons_self g rest) with ⟨l2, hl2⟩
    simp only [List.foldl_cons, hl2]
    exact ih (fun g2 hg2 => hgs g2 (List.mem_cons_of_mem g hg2)) (acc ++ l2)

/-- C10: from construction onward the files mapping holds an entry for each
of the four FileGroups; `AddFile` preserves this (and with a non-existent
path returns False leaving the project unchanged), and under the invariant
retrieving all files, the source files or the header files never fails. -/
theorem projectInfo_files_invariant (q p : ProjectInfo) (hp : HasAllGroups p)
    (fileExists : List String → Bool) (filePath : List String)
    (g : FileGroup) (root : List String) :
    HasAllGroups (postInit q) ∧
    (∃ l, GetAllFiles p = Except.ok l) ∧
    (∃ l, GetSourceFiles p = Except.ok l) ∧
    (∃ l, GetHeaderFiles p = Except.ok l) ∧
    (fileExists filePath = false →
      AddFile p fileExists filePath g root = Except.ok (p, false)) ∧
    (∀ p2 b, AddFile p fileExists filePath g root = Except.ok (p2, b) →
      HasAllGroups p2) := by
  have hok : ∀ g2 : FileGroup, ∃ l, getFiles p g2 = Except.ok l := by
    intro g2
    have := hp g2
    unfold getFiles
    cases hl : filesLookup p.files g2 with
    | some l => exact ⟨l, rfl⟩
    | none => rw [hl] at this; simp at this
  refine ⟨postInit_hasAllGroups q, ?_, ?_, ?_, ?_, ?_⟩
  · exact getAllFiles_ok_aux p ALL_FILE_GROUPS (fun g2 _ => hok g2) []
  · exact hok FileGroup.sources
  · exact hok FileGroup.headers
  · intro he
    unfold AddFile
    rw [if_pos he]
  · intro p2 b h
    unfold AddFile at h
    split at h
    · injection h with h2
      have hpp : p = p2 := congrArg Prod.fst h2
      rw [← hpp]
      exact hp
    · split at h
      · cases h
      · rename_i rel hrel
        split at h
        · rename_i fs2 happ
          injection h with h2
          have hpp : ({ p with files := fs2 } : ProjectInfo) = p2 :=
            congrArg Prod.fst h2
          intro g2
          rw [← hpp]
          rw [filesLookup_isSome_iff]
          show g2 ∈ filesKeys fs2
          rw [filesAppend_keys p.files g _ fs2 happ]
          rw [← filesLookup_isSome_iff]
          exact hp g2
        · cases h

theorem projectInfo_files_invariant_witness :
    HasAllGroups (ProjectInfo.create "LibNut" ["Source", "Runtime", "LibNut"]
      ProjectType.staticLibrary "Runtime") ∧
    ((fun _ : List String => false) ["Source", "x.cpp"] = false →
      AddFile (ProjectInfo.create "LibNut" ["Source", "Runtime", "LibNut"]
          ProjectType.staticLibrary "Runtime")
        (fun _ => false) ["Source", "x.cpp"] FileGroup.sources ["Source"] =
        Except.ok ((ProjectInfo.create "LibNut" ["Source", "Runtime", "LibNut"]
          ProjectType.staticLibrary "Runtime"), false)) :=
  ⟨by
    intro g
    exact (projectInfo_files_invariant
      (ProjectInfo.create "LibNut" ["Source", "Runtime", "LibNut"]
        ProjectType.staticLibrary "Runtime")
      (ProjectInfo.create "LibNut" ["Source", "Runtime", "LibNut"]
        ProjectType.staticLibrary "Runtime")
      (by intro g2; cases g2 <;> decide)
      (fun _ => false) ["Source", "x.cpp"] FileGroup.sources ["Source"]).1 g,
   (projectInfo_files_invariant
      (ProjectInfo.create "LibNut" ["Source", "Runtime", "LibNut"]
        ProjectType.staticLibrary "Runtime")
      (ProjectInfo.create "LibNut" ["Source", "Runtime", "LibNut"]
        ProjectType.staticLibrary "Runtime")
      (by intro g2; cases g2 <;> decide)
      (fun _ => false) ["Source", "x.cpp"] FileGroup.sources ["Source"]).2.2.2.2.1⟩

/-! ## Metadata parsing (src/Tools/ProjectGenerator/core/metadata_parser.py)

`ParsePythonBuildFile` walks the descriptor's AST for an assignment of a dict
literal to `ServiceMeta` and extracts literals; on any failure it logs a
warning (not an error) and returns an empty dict.  `ParseCsharpBuildFile`
searches for the pattern `class\s+(\w+)\s*:\s*NutTarget`; absent a match it
likewise logs a warning and returns an empty dict.  The AST subset is
modelled with mutually inductive expression/list/dict-entry types so all
recursion is structural. -/

mutual

inductive PyExpr where
  | strLit (s : String)
  | intLit (n : Int)
  | boolLit (b : Bool)
  | noneLit
  | listLit (xs : PyExprList)
  | dictLit (entries : PyDictEntries)
  | dynamic

inductive PyExprList where
  | nil
  | cons (head : PyExpr) (tail : PyExprList)

inductive PyDictEntries where
  | nil
  | cons (key : PyExpr) (value : PyExpr) (tail : PyDictEntries)

end

inductive PyValue where
  | str (s : String)
  | int (n : Int)
  | bool (b : Bool)
  | pynone
  | list (xs : List PyValue)
  | dict (d : List (String × PyValue))

/-- Python dict construction from key/value pairs in program order
(`result[key] = value` in a loop). -/
def pyDictFromPairs (pairs : List (String × PyValue)) :
    List (String × PyValue) :=
  pairs.foldl (fun acc p => dictInsert acc p.1 p.2) []

mutual

/-- `_ExtractValueFromAst` (lines 103-116): unknown/dynamic constructs and
the `None` constant both come back as Python `None`. -/
def extractValue : PyExpr → PyValue
  | PyExpr.strLit s => PyValue.str s
  | PyExpr.intLit n => PyValue.int n
  | PyExpr.boolLit b => PyValue.bool b
  | PyExpr.noneLit => PyValue.pynone
  | PyExpr.listLit xs => PyValue.list (extractValueList xs)
  | PyExpr.dictLit entries =>
      PyValue.dict (pyDictFromPairs (extractDictPairs entries))
  | PyExpr.dynamic => PyValue.pynone

def extractValueList : PyExprList → List PyValue
  | PyExprList.nil => []
  | PyExprList.cons x xs => extractValue x :: extractValueList xs

/-- `_ExtractDictFromAst` (lines 83-101): non-string keys are skipped, and a
pair whose extracted value is `None` is dropped. -/
def extractDictPairs : PyDictEntries → List (String × PyValue)
  | PyDictEntries.nil => []
  | PyDictEntries.cons k v rest =>
      match k with
      | PyExpr.strLit s =>
          match extractValue v with
          | PyValue.pynone => extractDictPairs rest
          | val => (s, val) :: extractDictPairs rest
      | _ => extractDictPairs rest

end

inductive PyStmt where
  | assign (targets : List (Option String)) (value : PyExpr)
  | other

inductive LogLevel where
  | warning
  | error
deriving DecidableEq

structure LogMsg where
  level : LogLevel
  text : String
deriving DecidableEq

/-- One node of the `ast.walk` scan (lines 38-44): an assignment counts only
when some target is the name `ServiceMeta` and the assigned value is a dict
literal. -/
def isServiceMetaDictAssign : PyStmt → Option PyDictEntries
  | PyStmt.assign targets (PyExpr.dictLit entries) =>
      if (some "ServiceMeta") ∈ targets then some entries else none
  | _ => none

def findServiceMetaDict : List PyStmt → Option PyDictEntries
  | [] => none
  | s :: rest =>
      match isServiceMetaDictAssign s with
      | some entries => some entries
      | none => findServiceMetaDict rest

/-- `ParsePythonBuildFile` (lines 20-51). -/
def ParsePythonBuildFile (fileName : String) (body : List PyStmt) :
    List (String × PyValue) × List LogMsg :=
  match findServiceMetaDict body with
  | some entries => (pyDictFromPairs (extractDictPairs entries), [])
  | none =>
      ([], [⟨LogLevel.warning, "未找到 ServiceMeta 定义: " ++ fileName⟩])

def isWordChar (c : Char) : Bool :=
  (48 ≤ c.toNat && c.toNat ≤ 57) || (65 ≤ c.toNat && c.toNat ≤ 90) ||
    (97 ≤ c.toNat && c.toNat ≤ 122) || c = '_'

def isSpaceChar (c : Char) : Bool :=
  c = ' ' || c = '\t' || c = '\n' || c = '\r' ||
    c.toNat = 11 || c.toNat = 12

def dropLiteral : List Char → List Char → Option (List Char)
  | [], cs => some cs
  | _ :: _, [] => none
  | p :: ps, c :: cs => if c = p then dropLiteral ps cs else none

def spanChars (p : Char → Bool) : List Char → List Char × List Char
  | [] => ([], [])
  | c :: cs =>
      if p c then
        let r := spanChars p cs
        (c :: r.1, r.2)
      else ([], c :: cs)

/-- Match `class\s+(\w+)\s*:\s*NutTarget` at the start of `cs` and return the
captured class name. -/
def tryMatchClassNutTarget (cs : List Char) : Option String :=
  match dropLiteral "class".data cs with
  | none => none
  | some rest1 =>
      let s1 := spanChars isSpaceChar rest1
      if s1.1.isEmpty then none
      else
        let s2 := spanChars isWordChar s1.2
        if s2.1.isEmpty then none
        else
          let s3 := spanChars isSpaceChar s2.2
          match s3.2 with
          | ':' :: rest5 =>
              let s4 := spanChars isSpaceChar rest5
              match dropLiteral "NutTarget".data s4.2 with
              | some _ => some (String.mk s2.1)
              | none => none
          | _ => none

/-- Leftmost `re.search` over the file content. -/
def findClassNutTarget : List Char → Option String
  | [] => none
  | c :: cs =>
      match tryMatchClassNutTarget (c :: cs) with
      | some nm => some nm
      | none => findClassNutTarget cs

/-- Python `str.replace` (all non-overlapping occurrences, left to right);
fuelled by the input length so the recursion is structural. -/
def replaceAllFuel (pat rep : List Char) : Nat → List Char → List Char
  | 0, l => l
  | _ + 1, [] => []
  | fuel + 1, c :: cs =>
      if List.isPrefixOf pat (c :: cs) then
        rep ++ replaceAllFuel pat rep fuel (List.drop (pat.length - 1) cs)
      else c :: replaceAllFuel pat rep fuel cs

def strReplace (s pat rep : String) : String :=
  String.mk (replaceAllFuel pat.data rep.data s.data.length s.data)

/-- `ParseCsharpBuildFile` (lines 53-81). -/
def ParseCsharpBuildFile (fileName : String) (content : String) :
    List (String × PyValue) × List LogMsg :=
  match findClassNutTarget content.data with
  | some className =>
      ([("name", PyValue.str (strReplace className "Target" "")),
        ("type", PyValue.str "csharp_target"),
        ("class_name", PyValue.str className)], [])
  | none =>
      ([], [⟨LogLevel.warning, "未找到 NutTarget 派生类: " ++ fileName⟩])

/-- `_ParseBuildMetadata` (project_discoverer.py lines 171-191): only
`*.Build.py` then `*.Build.cs` files are dispatched (dialect by suffix);
files of any other suffix are never parsed and produce no diagnostic. -/
def ParseBuildMetadata (pyFiles : List (String × List PyStmt))
    (csFiles : List (String × String)) :
    List (String × PyValue) × List LogMsg :=
  match pyFiles with
  | (nm, body) :: _ => ParsePythonBuildFile nm body
  | [] =>
      match csFiles with
      | (nm, content) :: _ => ParseCsharpBuildFile nm content
      | [] => ([], [])

/-- Modelled from the spec: the spec's `MalformedDescriptor` failure (absent
from the source, which has no such error value) would be an error-severity
outcome naming the offending file. -/
def specMalformedDescriptorFailure (fileName : String)
    (out : List (String × PyValue) × List LogMsg) : Prop :=
  ∃ msg ∈ out.2, msg.level = LogLevel.error ∧
    ∃ pre post, msg.text = pre ++ fileName ++ post

theorem str_append_empty (s : String) : s ++ "" = s := by
  cases s with
  | mk d => exact congrArg String.mk (List.append_nil d)

/-- C7 counterexample: a descriptor with no `ServiceMeta` construct makes
`ParsePythonBuildFile` return a normal empty mapping plus a warning-severity
log line — there is no `MalformedDescriptor` error, so "Parse fails with a
MalformedDescriptor error" is false on this input. -/
theorem parse_no_error_on_malformed :
    ParsePythonBuildFile "X.Build.py" [PyStmt.other] =
      ([], [⟨LogLevel.warning, "未找到 ServiceMeta 定义: X.Build.py"⟩]) ∧
    ¬ specMalformedDescriptorFailure "X.Build.py"
        (ParsePythonBuildFile "X.Build.py" [PyStmt.other]) := by
  constructor
  · rfl
  · rintro ⟨msg, hmem, hlvl, -⟩
    have : msg = ⟨LogLevel.warning, "未找到 ServiceMeta 定义: X.Build.py"⟩ := by
      have h2 : (ParsePythonBuildFile "X.Build.py" [PyStmt.other]).2 =
          [⟨LogLevel.warning, "未找到 ServiceMeta 定义: X.Build.py"⟩] := rfl
      rw [h2] at hmem
      exact List.mem_singleton.mp hmem
    rw [this] at hlvl
    exact absurd hlvl (by decide)

theorem findServiceMetaDict_eq_none (body : List PyStmt)
    (h : ∀ s ∈ body, isServiceMetaDictAssign s = none) :
    findServiceMetaDict body = none := by
  induction body with
  | nil => rfl
  | cons s rest ih =>
    have hs := h s (List.mem_cons_self s rest)
    simp only [findServiceMetaDict, hs]
    exact ih (fun s2 hs2 => h s2 (List.mem_cons_of_mem s hs2))

/-- C7 (amended): a descriptor with no recognizable unit-defining construct
makes the dialect parser return an empty metadata mapping together with a
single warning-severity diagnostic whose text names the offending file
(never a MalformedDescriptor error, which does not exist in this code), for
both the declarative-literal and the declarative-class dialect; descriptor
files of an unknown dialect are never dispatched to a parser and yield an
empty mapping with no diagnostic at all. -/
theorem parse_no_construct_warns (fileName : String) (body : List PyStmt)
    (hnone : ∀ s ∈ body, isServiceMetaDictAssign s = none)
    (csName csContent : String)
    (hcs : findClassNutTarget csContent.data = none) :
    ParsePythonBuildFile fileName body =
      ([], [⟨LogLevel.warning, "未找到 ServiceMeta 定义: " ++ fileName⟩]) ∧
    (∃ pre post, ("未找到 ServiceMeta 定义: " ++ fileName : String) =
      pre ++ fileName ++ post) ∧
    ¬ specMalformedDescriptorFailure fileName
        (ParsePythonBuildFile fileName body) ∧
    ParseCsharpBuildFile csName csContent =
      ([], [⟨LogLevel.warning, "未找到 NutTarget 派生类: " ++ csName⟩]) ∧
    ¬ specMalformedDescriptorFailure csName
        (ParseCsharpBuildFile csName csContent) ∧
    ParseBuildMetadata [] [] = ([], []) := by
  have hpy : ParsePythonBuildFile fileName body =
      ([], [⟨LogLevel.warning, "未找到 ServiceMeta 定义: " ++ fileName⟩]) := by
    unfold ParsePythonBuildFile
    rw [findServiceMetaDict_eq_none body hnone]
  have hcs2 : ParseCsharpBuildFile csName csContent =
      ([], [⟨LogLevel.warning, "未找到 NutTarget 派生类: " ++ csName⟩]) := by
    unfold ParseCsharpBuildFile
    rw [hcs]
  refine ⟨hpy, ⟨"未找到 ServiceMeta 定义: ", "", (str_append_empty _).symm⟩,
    ?_, hcs2, ?_, rfl⟩
  · rintro ⟨msg, hmem, hlvl, -⟩
    rw [hpy] at hmem
    have := List.mem_singleton.mp hmem
    rw [this] at hlvl
    exact LogLevel.noConfusion hlvl
  · rintro ⟨msg, hmem, hlvl, -⟩
    rw [hcs2] at hmem
    have := List.mem_singleton.mp hmem
    rw [this] at hlvl
    exact LogLevel.noConfusion hlvl

theorem parse_no_construct_warns_witness :
    (∀ s ∈ [PyStmt.other], isServiceMetaDictAssign s = none) ∧
    findClassNutTarget ("class Allocator : MonoBehaviour" : String).data
      = none ∧
    (ParsePythonBuildFile "X.Build.py" [PyStmt.other] =
      ([], [⟨LogLevel.warning, "未找到 ServiceMeta 定义: X.Build.py"⟩]) ∧
     ParseCsharpBuildFile "Y.Build.cs" "class Allocator : MonoBehaviour" =
      ([], [⟨LogLevel.warning, "未找到 NutTarget 派生类: Y.Build.cs"⟩])) :=
  ⟨fun s hs => by rw [List.mem_singleton.mp hs]; rfl,
   rfl,
   (parse_no_construct_warns "X.Build.py" [PyStmt.other]
      (fun s hs => by rw [List.mem_singleton.mp hs]; rfl)
      "Y.Build.cs" "class Allocator : MonoBehaviour" rfl).1,
   (parse_no_construct_warns "X.Build.py" [PyStmt.other]
      (fun s hs => by rw [List.mem_singleton.mp hs]; rfl)
      "Y.Build.cs" "class Allocator : MonoBehaviour" rfl).2.2.2.1⟩

/-- The C# dialect parser does recognize a `NutTarget`-derived class and
strips the `Target` suffix from the unit name, evaluated concretely. -/
theorem parseCsharp_recognizes_target :
    ParseCsharpBuildFile "Z.Build.cs" "public class NutBuildToolsTarget : NutTarget \x7b \x7d" =
      ([("name", PyValue.str "NutBuildTools"),
        ("type", PyValue.str "csharp_target"),
        ("class_name", PyValue.str "NutBuildToolsTarget")], []) := rfl

/-! ## Deterministic GUIDs (src/Tools/ProjectGenerator/utils/uuid_generator.py)

`UuidGenerator.GenerateGuid` hashes the unit name with MD5
(`hashlib.md5(name.encode('utf-8'))`) and formats the digest as an upper-case
braced GUID.  MD5 is implemented here over byte lists with explicit `% 2^32`
arithmetic.  `UuidGenerator._GenerateRandom` (the non-deterministic path) is
the only consumer of process randomness; the Visual Studio solution emitter
never calls it, which the emitter's random-stream parameter makes provable. -/

def mask32 (x : Nat) : Nat := x % 4294967296

def rotl32 (x n : Nat) : Nat :=
  ((x <<< n) % 4294967296) ||| (x >>> (32 - n))

def md5K : List Nat :=
  [3614090360, 3905402710, 606105819, 3250441966, 4118548399, 1200080426,
   2821735955, 4249261313, 1770035416, 2336552879, 4294925233,
   2304563134, 1804603682, 4254626195, 2792965006, 1236535329,
   4129170786, 3225465664, 643717713, 3921069994, 3593408605, 38016083,
   3634488961, 3889429448, 568446438, 3275163606, 4107603335, 1163531501,
   2850285829, 4243563512, 1735328473, 2368359562, 4294588738,
   2272392833, 1839030562, 4259657740, 2763975236, 1272893353,
   4139469664, 3200236656, 681279174, 3936430074, 3572445317, 76029189,
   3654602809, 3873151461, 530742520, 3299628645, 4096336452, 1126891415,
   2878612391, 4237533241, 1700485571, 2399980690, 4293915773,
   2240044497, 1873313359, 4264355552, 2734768916, 1309151649,
   4149444226, 3174756917, 718787259, 3951481745]

def md5S : List Nat :=
  [7, 12, 17, 22, 7, 12, 17, 22, 7, 12, 17, 22, 7, 12, 17, 22, 5, 9, 14,
   20, 5, 9, 14, 20, 5, 9, 14, 20, 5, 9, 14, 20, 4, 11, 16, 23, 4, 11,
   16, 23, 4, 11, 16, 23, 4, 11, 16, 23, 6, 10, 15, 21, 6, 10, 15, 21, 6,
   10, 15, 21, 6, 10, 15, 21]

def md5F (i b c d : Nat) : Nat :=
  if i < 16 then (b &&& c) ||| ((4294967295 ^^^ b) &&& d)
  else if i < 32 then (d &&& b) ||| ((4294967295 ^^^ d) &&& c)
  else if i < 48 then b ^^^ c ^^^ d
  else c ^^^ (b ||| (4294967295 ^^^ d))

def md5G (i : Nat) : Nat :=
  if i < 16 then i
  else if i < 32 then (5 * i + 1) % 16
  else if i < 48 then (3 * i + 5) % 16
  else (7 * i) % 16

def md5Round (M : List Nat) (st : Nat × Nat × Nat × Nat) (i : Nat) :
    Nat × Nat × Nat × Nat :=
  let f := mask32 (md5F i st.2.1 st.2.2.1 st.2.2.2 + st.1 +
    md5K.getD i 0 + M.getD (md5G i) 0)
  (st.2.2.2, mask32 (st.2.1 + rotl32 f (md5S.getD i 0)), st.2.1, st.2.2.1)

def md5Chunk (st : Nat × Nat × Nat × Nat) (M : List Nat) :
    Nat × Nat × Nat × Nat :=
  let r := (List.range 64).foldl (md5Round M) st
  (mask32 (st.1 + r.1), mask32 (st.2.1 + r.2.1),
   mask32 (st.2.2.1 + r.2.2.1), mask32 (st.2.2.2 + r.2.2.2))

def toLEBytes (numBytes x : Nat) : List Nat :=
  (List.range numBytes).map (fun i => (x >>> (8 * i)) % 256)

def md5Pad (msg : List Nat) : List Nat :=
  msg ++ [128] ++ List.replicate ((119 - msg.length % 64) % 64) 0 ++
    toLEBytes 8 ((msg.length * 8) % 18446744073709551616)

def chunksOf64 : Nat → List Nat → List (List Nat)
  | 0, _ => []
  | fuel + 1, l =>
      if l.isEmpty then [] else l.take 64 :: chunksOf64 fuel (l.drop 64)

def leWord (bytes : List Nat) (i : Nat) : Nat :=
  bytes.getD (4 * i) 0 + 256 * bytes.getD (4 * i + 1) 0 +
    65536 * bytes.getD (4 * i + 2) 0 + 16777216 * bytes.getD (4 * i + 3) 0

def chunkWords (chunk : List Nat) : List Nat :=
  (List.range 16).map (leWord chunk)

def md5Bytes (msg : List Nat) : List Nat :=
  let padded := md5Pad msg
  let st := (chunksOf64 padded.length padded).foldl
    (fun st ch => md5Chunk st (chunkWords ch))
    (1732584193, 4023233417, 2562383102, 271733878)
  toLEBytes 4 st.1 ++ toLEBytes 4 st.2.1 ++ toLEBytes 4 st.2.2.1 ++
    toLEBytes 4 st.2.2.2

def hexDigitChar (n : Nat) : Char := "0123456789abcdef".data.getD n '0'

def md5Hex (msg : List Nat) : String :=
  String.mk ((md5Bytes msg).foldr
    (fun b acc => hexDigitChar (b / 16) :: hexDigitChar (b % 16) :: acc) [])

def utf8EncodeChar (n : Nat) : List Nat :=
  if n < 128 then [n]
  else if n < 2048 then [192 + n / 64, 128 + n % 64]
  else if n < 65536 then
    [224 + n / 4096, 128 + (n / 64) % 64, 128 + n % 64]
  else
    [240 + n / 262144, 128 + (n / 4096) % 64, 128 + (n / 64) % 64,
     128 + n % 64]

def utf8Encode (s : String) : List Nat :=
  s.data.foldr (fun c acc => utf8EncodeChar c.toNat ++ acc) []

set_option maxRecDepth 4096 in
theorem md5_test_vector_empty :
    md5Hex (utf8Encode "") = "d41d8cd98f00b204e9800998ecf8427e" := by decide

set_option maxRecDepth 4096 in
theorem md5_test_vector_abc :
    md5Hex (utf8Encode "abc") = "900150983cd24fb0d6963f7d28e17f72" := by
  decide

def charToUpper (c : Char) : Char :=
  if 97 ≤ c.toNat && c.toNat ≤ 122 then Char.ofNat (c.toNat - 32) else c

/-- `UuidGenerator.GenerateGuid` (lines 42-63): MD5 of the UTF-8 name,
formatted `\x7b8-4-4-4-12\x7d` and upper-cased.  It reads nothing besides the
name — in particular no randomness and no generator state. -/
def GenerateGuid (name : String) : String :=
  String.mk
    ((('\x7b' :: ((md5Hex (utf8Encode name)).data.take 8)) ++
      ('-' :: (((md5Hex (utf8Encode name)).data.drop 8).take 4)) ++
      ('-' :: (((md5Hex (utf8Encode name)).data.drop 12).take 4)) ++
      ('-' :: (((md5Hex (utf8Encode name)).data.drop 16).take 4)) ++
      ('-' :: (((md5Hex (utf8Encode name)).data.drop 20).take 12)) ++
      ['\x7d']).map charToUpper)

set_option maxRecDepth 8192 in
theorem generateGuid_player_service :
    GenerateGuid "PlayerService" =
      "\x7b3E527762-4079-9CC8-34DE-C3AC909AB123\x7d" := by decide

/-! ## Workspace/solution emission
(src/Tools/ProjectGenerator/generators/workspace_generator.py,
`_GenerateVsSolution` and `_GroupProjects`)

`_GroupProjects` buckets projects by `group_name` in first-occurrence order
(Python dict) and sorts each bucket by project name (stable).  The solution
text is assembled line by line exactly as in the source and joined with
`"\n"`.  `Path.relative_to` for a C# project outside `root/Source` raises,
so emission is `Except`-valued.  The process random source (used only by
`UuidGenerator._GenerateRandom`, never on this code path) is passed in as a
stream so that independence from it is a provable statement. -/

def charListLE : List Char → List Char → Bool
  | [], _ => true
  | _ :: _, [] => false
  | a :: as, b :: bs =>
      if a.toNat < b.toNat then true
      else if a.toNat = b.toNat then charListLE as bs
      else false

def strLE (a b : String) : Bool := charListLE a.data b.data

/-- Stable insertion keeping earlier elements first among equal names
(Python `list.sort` is stable). -/
def insertSortedByName (x : ProjectInfo) :
    List ProjectInfo → List ProjectInfo
  | [] => [x]
  | q :: rest =>
      if strLE q.name x.name then q :: insertSortedByName x rest
      else x :: q :: rest

def sortByName (l : List ProjectInfo) : List ProjectInfo :=
  l.foldl (fun acc x => insertSortedByName x acc) []

def dictAppendGroup (d : List (String × List ProjectInfo)) (k : String)
    (v : ProjectInfo) : List (String × List ProjectInfo) :=
  if d.any (fun p => p.1 = k) then
    d.map (fun p => if p.1 = k then (p.1, p.2 ++ [v]) else p)
  else d ++ [(k, [v])]

/-- `_GroupProjects` (lines 210-224). -/
def groupProjects (projects : List ProjectInfo) :
    List (String × List ProjectInfo) :=
  (projects.foldl (fun acc p => dictAppendGroup acc p.groupName p) []).map
    (fun g => (g.1, sortByName g.2))

def joinPath (parts : List String) : String := String.intercalate "/" parts

def projectLineOf (ptGuid name pfile guid : String) : String :=
  "Project(\"" ++ ptGuid ++ "\") = \"" ++ name ++ "\", \"" ++ pfile ++
    "\", \"" ++ guid ++ "\""

def csharpConfigs (guid : String) : List String :=
  [guid ++ ".Debug|Any CPU.ActiveCfg = Debug|Any CPU",
   guid ++ ".Debug|Any CPU.Build.0 = Debug|Any CPU",
   guid ++ ".Debug|x64.ActiveCfg = Debug|Any CPU",
   guid ++ ".Debug|x64.Build.0 = Debug|Any CPU",
   guid ++ ".Release|Any CPU.ActiveCfg = Release|Any CPU",
   guid ++ ".Release|Any CPU.Build.0 = Release|Any CPU",
   guid ++ ".Release|x64.ActiveCfg = Release|Any CPU",
   guid ++ ".Release|x64.Build.0 = Release|Any CPU"]

def cppConfigs (guid : String) : List String :=
  [guid ++ ".Debug|Any CPU.ActiveCfg = Debug|x64",
   guid ++ ".Debug|x64.ActiveCfg = Debug|x64",
   guid ++ ".Debug|x64.Build.0 = Debug|x64",
   guid ++ ".Release|Any CPU.ActiveCfg = Release|x64",
   guid ++ ".Release|x64.ActiveCfg = Release|x64",
   guid ++ ".Release|x64.Build.0 = Release|x64"]

/-- One iteration of the per-project loop (lines 123-162): the Project/
EndProject lines, the configuration entries and the nested-project entry. -/
def projectEntry (root : List String) (groupName : String)
    (p : ProjectInfo) :
    Except String (List String × List String × List String) :=
  if projectIsCsharp p then
    match relativeTo p.path (root ++ ["Source"]) with
    | none => Except.error "ValueError"
    | some rel =>
        Except.ok
          ([projectLineOf "\x7bFAE04EC0-301F-11D3-BF4B-00C04F79EFBC\x7d"
              p.name
              ("Source/" ++ joinPath rel ++ "/" ++ p.name ++ ".csproj")
              (GenerateGuid p.name), "EndProject"],
           csharpConfigs (GenerateGuid p.name),
           [GenerateGuid p.name ++ " = " ++
             GenerateGuid ("Folder_" ++ groupName)])
  else
    Except.ok
      ([projectLineOf "\x7b8BC9CEB8-8B4A-11D0-8D11-00A0C91BC942\x7d"
          p.name ("Projects/" ++ groupName ++ "/" ++ p.name ++ ".vcxproj")
          (GenerateGuid p.name), "EndProject"],
       cppConfigs (GenerateGuid p.name),
       [GenerateGuid p.name ++ " = " ++ GenerateGuid ("Folder_" ++ groupName)])

def projectLinesFor (root : List String) (groupName : String) :
    List ProjectInfo →
      Except String (List String × List String × List String)
  | [] => Except.ok ([], [], [])
  | p :: rest =>
      match projectEntry root groupName p,
          projectLinesFor root groupName rest with
      | Except.ok (l1, c1, n1), Except.ok (l2, c2, n2) =>
          Except.ok (l1 ++ l2, c1 ++ c2, n1 ++ n2)
      | Except.error e, _ => Except.error e
      | Except.ok _, Except.error e => Except.error e

def solutionEntries (root : List String) :
    List (String × List ProjectInfo) →
      Except String (List String × List String × List String)
  | [] => Except.ok ([], [], [])
  | (g, ps) :: rest =>
      if ps.isEmpty then solutionEntries root rest
      else
        match projectLinesFor root g ps, solutionEntries root rest with
        | Except.ok (l1, c1, n1), Except.ok (l2, c2, n2) =>
            Except.ok (l1 ++ l2, c1 ++ c2, n1 ++ n2)
        | Except.error e, _ => Except.error e
        | Except.ok _, Except.error e => Except.error e

/-- Folder entries (lines 164-169). -/
def folderLines (groups : List (String × List ProjectInfo)) : List String :=
  groups.foldr
    (fun g acc =>
      if g.2.isEmpty then acc
      else
        ("Project(\"\x7b2150E333-8FDC-42A3-9474-1A3956D46DE8\x7d\") = \"" ++
          g.1 ++ "\", \"" ++ g.1 ++ "\", \"" ++
          GenerateGuid ("Folder_" ++ g.1) ++ "\"") :: "EndProject" :: acc)
    []

def solutionHeader : List String :=
  ["Microsoft Visual Studio Solution File, Format Version 12.00",
   "# Visual Studio Version 17",
   "VisualStudioVersion = 17.0.31903.59",
   "MinimumVisualStudioVersion = 10.0.40219.1"]

def solutionGlobalHeader : List String :=
  ["Global",
   "\tGlobalSection(SolutionConfigurationPlatforms) = preSolution",
   "\t\tDebug|Any CPU = Debug|Any CPU",
   "\t\tDebug|x64 = Debug|x64",
   "\t\tRelease|Any CPU = Release|Any CPU",
   "\t\tRelease|x64 = Release|x64",
   "\tEndGlobalSection",
   "\tGlobalSection(ProjectConfigurationPlatforms) = postSolution"]

def solutionFooter : List String :=
  ["\tEndGlobalSection",
   "\tGlobalSection(SolutionProperties) = preSolution",
   "\t\tHideSolutionNode = FALSE",
   "\tEndGlobalSection",
   "EndGlobal"]

/-- Python `"\n".join`. -/
def joinLines : List String → String
  | [] => ""
  | [l] => l
  | l :: rest => l ++ "\n" ++ joinLines rest

/-- `_GenerateVsSolution` (lines 100-208).  `rand` is the process random
source available to `UuidGenerator._GenerateRandom`; this code path never
draws from it. -/
def GenerateVsSolution (root : List String) (projects : List ProjectInfo)
    (rand : Nat → String) : Except String String :=
  match solutionEntries root (groupProjects projects) with
  | Except.error e => Except.error e
  | Except.ok (plines, cfgs, nested) =>
      Except.ok (joinLines
        (solutionHeader ++ plines ++ folderLines (groupProjects projects) ++
          solutionGlobalHeader ++ cfgs.map (fun c => "\t\t" ++ c) ++
          ["\tEndGlobalSection",
           "\tGlobalSection(NestedProjects) = preSolution"] ++
          nested.map (fun n2 => "\t\t" ++ n2) ++ solutionFooter))

theorem str_append_assoc (a b c : String) : a ++ b ++ c = a ++ (b ++ c) := by
  cases a with
  | mk da =>
    cases b with
    | mk db =>
      cases c with
      | mk dc => exact congrArg String.mk (List.append_assoc da db dc)

theorem mem_insertSortedByName (x y : ProjectInfo) (l : List ProjectInfo) :
    y ∈ insertSortedByName x l ↔ y = x ∨ y ∈ l := by
  induction l with
  | nil => simp [insertSortedByName]
  | cons q rest ih =>
    unfold insertSortedByName
    by_cases hq : strLE q.name x.name = true
    · rw [if_pos hq]
      simp only [List.mem_cons, ih]
      tauto
    · rw [if_neg hq]
      simp only [List.mem_cons]

theorem mem_sortByName (y : ProjectInfo) (l : List ProjectInfo) :
    y ∈ sortByName l ↔ y ∈ l := by
  have hgen : ∀ (l : List ProjectInfo) (acc : List ProjectInfo),
      y ∈ l.foldl (fun acc2 x => insertSortedByName x acc2) acc ↔
        y ∈ acc ∨ y ∈ l := by
    intro l
    induction l with
    | nil => intro acc; simp
    | cons x rest ih =>
      intro acc
      simp only [List.foldl_cons, ih, mem_insertSortedByName, List.mem_cons]
      tauto
  unfold sortByName
  rw [hgen]
  simp

theorem dictAppendGroup_mem_preserved
    (d : List (String × List ProjectInfo)) (k : String) (v y : ProjectInfo)
    (h : ∃ e ∈ d, y ∈ e.2) : ∃ e ∈ dictAppendGroup d k v, y ∈ e.2 := by
  rcases h with ⟨e, he, hy⟩
  unfold dictAppendGroup
  by_cases hany : d.any (fun p => p.1 = k)
  · rw [if_pos hany]
    refine ⟨if e.1 = k then (e.1, e.2 ++ [v]) else e, List.mem_map_of_mem _ he, ?_⟩
    by_cases he1 : e.1 = k
    · simp only [he1, if_true]
      exact List.mem_append_left _ hy
    · simp only [he1, if_false]
      exact hy
  · rw [if_neg hany]
    exact ⟨e, List.mem_append_left _ he, hy⟩

theorem dictAppendGroup_mem_new (d : List (String × List ProjectInfo))
    (k : String) (v : ProjectInfo) :
    ∃ e ∈ dictAppendGroup d k v, v ∈ e.2 := by
  unfold dictAppendGroup
  by_cases hany : d.any (fun p => p.1 = k)
  · rw [if_pos hany]
    rcases List.any_eq_true.mp hany with ⟨e, he, hek⟩
    have hek2 : e.1 = k := by simpa using hek
    refine ⟨(e.1, e.2 ++ [v]), ?_, by simp⟩
    have : (e.1, e.2 ++ [v]) = if e.1 = k then (e.1, e.2 ++ [v]) else e := by
      rw [if_pos hek2]
    rw [this]
    exact List.mem_map_of_mem _ he
  · rw [if_neg hany]
    exact ⟨(k, [v]), List.mem_append_right _ (by simp), by simp⟩

theorem groupProjects_cover (projects : List ProjectInfo)
    (p : ProjectInfo) (hp : p ∈ projects) :
    ∃ g ps, (g, ps) ∈ groupProjects projects ∧ p ∈ ps := by
  have hgen : ∀ (l : List ProjectInfo)
      (acc : List (String × List ProjectInfo)),
      (∃ e ∈ acc, p ∈ e.2) ∨ p ∈ l →
      ∃ e ∈ l.foldl (fun a q => dictAppendGroup a q.groupName q) acc,
        p ∈ e.2 := by
    intro l
    induction l with
    | nil =>
      intro acc h
      rcases h with h | h
      · exact h
      · simp at h
    | cons q rest ih =>
      intro acc h
      simp only [List.foldl_cons]
      apply ih
      rcases h with h | h
      · exact Or.inl (dictAppendGroup_mem_preserved acc q.groupName q p h)
      · rcases List.mem_cons.mp h with h | h
        · subst h
          exact Or.inl (dictAppendGroup_mem_new acc p.groupName p)
        · exact Or.inr h
  rcases hgen projects [] (Or.inr hp) with ⟨e, he, hpe⟩
  refine ⟨e.1, sortByName e.2, ?_, (mem_sortByName p e.2).mpr hpe⟩
  unfold groupProjects
  have : (e.1, sortByName e.2) = (fun g => (g.1, sortByName g.2)) e := rfl
  rw [this]
  exact List.mem_map_of_mem _ he

theorem projectLineOf_decomp (ptGuid name pfile guid : String) :
    projectLineOf ptGuid name pfile guid =
      ("Project(\"" ++ ptGuid ++ "\") = \"" ++ name ++ "\", \"" ++ pfile ++
        "\", \"") ++ guid ++ "\"" := rfl

theorem projectEntry_guid (root : List String) (groupName : String)
    (p : ProjectInfo) (l1 c1 n1 : List String)
    (h : projectEntry root groupName p = Except.ok (l1, c1, n1)) :
    ∃ line ∈ l1, ∃ a b, line = a ++ GenerateGuid p.name ++ b := by
  unfold projectEntry at h
  split at h
  · split at h
    · cases h
    · rename_i rel hrel
      injection h with h2
      simp only [Prod.mk.injEq] at h2
      obtain ⟨hL, hC, hN⟩ := h2
      refine ⟨projectLineOf "\x7bFAE04EC0-301F-11D3-BF4B-00C04F79EFBC\x7d"
        p.name ("Source/" ++ joinPath rel ++ "/" ++ p.name ++ ".csproj")
        (GenerateGuid p.name), ?_, ?_⟩
      · rw [← hL]
        exact List.mem_cons_self _ _
      · exact ⟨_, "\"", projectLineOf_decomp _ _ _ _⟩
  · injection h with h2
    simp only [Prod.mk.injEq] at h2
    obtain ⟨hL, hC, hN⟩ := h2
    refine ⟨projectLineOf "\x7b8BC9CEB8-8B4A-11D0-8D11-00A0C91BC942\x7d"
      p.name ("Projects/" ++ groupName ++ "/" ++ p.name ++ ".vcxproj")
      (GenerateGuid p.name), ?_, ?_⟩
    · rw [← hL]
      exact List.mem_cons_self _ _
    · exact ⟨_, "\"", projectLineOf_decomp _ _ _ _⟩

theorem projectLinesFor_guid (root : List String) (groupName : String)
    (ps : List ProjectInfo) (p : ProjectInfo) (hp : p ∈ ps)
    (L C N : List String)
    (h : projectLinesFor root groupName ps = Except.ok (L, C, N)) :
    ∃ line ∈ L, ∃ a b, line = a ++ GenerateGuid p.name ++ b := by
  induction ps generalizing L C N with
  | nil => simp at hp
  | cons q rest ih =>
    unfold projectLinesFor at h
    split at h
    · rename_i l1 c1 n1 l2 c2 n2 h1 h2
      injection h with h3
      simp only [Prod.mk.injEq] at h3
      obtain ⟨hL, hC, hN⟩ := h3
      rcases List.mem_cons.mp hp with hq | hq
      · subst hq
        rcases projectEntry_guid root groupName p l1 c1 n1 h1 with
          ⟨line, hline, a, b, hab⟩
        exact ⟨line, by rw [← hL]; exact List.mem_append_left _ hline,
          a, b, hab⟩
      · rcases ih hq l2 c2 n2 h2 with ⟨line, hline, a, b, hab⟩
        exact ⟨line, by rw [← hL]; exact List.mem_append_right _ hline,
          a, b, hab⟩
    · cases h
    · cases h

theorem solutionEntries_guid (root : List String)
    (groups : List (String × List ProjectInfo)) (g : String)
    (ps : List ProjectInfo) (p : ProjectInfo)
    (hg : (g, ps) ∈ groups) (hp : p ∈ ps) (L C N : List String)
    (h : solutionEntries root groups = Except.ok (L, C, N)) :
    ∃ line ∈ L, ∃ a b, line = a ++ GenerateGuid p.name ++ b := by
  induction groups generalizing L C N with
  | nil => simp at hg
  | cons e rest ih =>
    obtain ⟨eg, eps⟩ := e
    unfold solutionEntries at h
    rcases List.mem_cons.mp hg with he | he
    · obtain ⟨hg1, hg2⟩ := Prod.mk.injEq g ps eg eps ▸ he
      subst hg1
      subst hg2
      have hne : ps.isEmpty = false := by
        cases ps with
        | nil => simp at hp
        | cons a as => rfl
      rw [hne] at h
      simp only [Bool.false_eq_true, if_false] at h
      split at h
      · rename_i l1 c1 n1 l2 c2 n2 h1 h2
        injection h with h3
        simp only [Prod.mk.injEq] at h3
        obtain ⟨hL, hC, hN⟩ := h3
        rcases projectLinesFor_guid root g ps p hp l1 c1 n1 h1 with
          ⟨line, hline, a, b, hab⟩
        exact ⟨line, by rw [← hL]; exact List.mem_append_left _ hline,
          a, b, hab⟩
      · cases h
      · cases h
    · by_cases hne : eps.isEmpty = true
      · rw [if_pos hne] at h
        exact ih he L C N h
      · rw [if_neg hne] at h
        split at h
        · rename_i l1 c1 n1 l2 c2 n2 h1 h2
          injection h with h3
          simp only [Prod.mk.injEq] at h3
          obtain ⟨hL, hC, hN⟩ := h3
          rcases ih he l2 c2 n2 h2 with ⟨line, hline, a, b, hab⟩
          exact ⟨line, by rw [← hL]; exact List.mem_append_right _ hline,
            a, b, hab⟩
        · cases h
        · cases h

theorem joinLines_contains (lines : List String) (line : String)
    (h : line ∈ lines) :
    ∃ pre post, joinLines lines = pre ++ line ++ post := by
  induction lines with
  | nil => simp at h
  | cons l rest ih =>
    rcases List.mem_cons.mp h with hl | hl
    · subst hl
      cases rest with
      | nil =>
        refine ⟨"", "", ?_⟩
        show line = "" ++ line ++ ""
        rw [show ("" ++ line : String) = line from rfl, str_append_empty]
      | cons r rs =>
        refine ⟨"", "\n" ++ joinLines (r :: rs), ?_⟩
        show line ++ "\n" ++ joinLines (r :: rs) =
          "" ++ line ++ ("\n" ++ joinLines (r :: rs))
        rw [show ("" ++ line : String) = line from rfl, str_append_assoc]
    · cases rest with
      | nil => simp at hl
      | cons r rs =>
        rcases ih hl with ⟨pre, post, hpre⟩
        refine ⟨l ++ "\n" ++ pre, post, ?_⟩
        show l ++ "\n" ++ joinLines (r :: rs) =
          l ++ "\n" ++ pre ++ line ++ post
        rw [hpre]
        rw [str_append_assoc (l ++ "\n") pre line,
          str_append_assoc (l ++ "\n") (pre ++ line) post]

theorem str_regroup (pre a g b post : String) :
    pre ++ (a ++ g ++ b) ++ post = pre ++ a ++ g ++ (b ++ post) := by
  cases pre with | mk d1 =>
  cases a with | mk d2 =>
  cases g with | mk d3 =>
  cases b with | mk d4 =>
  cases post with | mk d5 =>
  exact congrArg String.mk (by simp [List.append_assoc])

/-- C2: for a fixed ordered set of discovered units, the Visual Studio
solution emitter is a pure function of the units — two consecutive
generation runs, even with different process random streams, produce
byte-identical output — and each unit's identifier occurring in the emitted
file is `GenerateGuid` of the unit name, i.e. an MD5 content hash of the
name, never a value drawn from the random source. -/
theorem vsSolution_deterministic (root : List String)
    (projects : List ProjectInfo) (rand1 rand2 : Nat → String) :
    GenerateVsSolution root projects rand1 =
      GenerateVsSolution root projects rand2 ∧
    ∀ p ∈ projects, ∀ out,
      GenerateVsSolution root projects rand1 = Except.ok out →
      ∃ pre post, out = pre ++ GenerateGuid p.name ++ post := by
  constructor
  · rfl
  · intro p hp out hout
    unfold GenerateVsSolution at hout
    split at hout
    · cases hout
    · rename_i plines cfgs nested hentries
      injection hout with hout2
      rcases groupProjects_cover projects p hp with ⟨g, ps, hg, hps⟩
      rcases solutionEntries_guid root (groupProjects projects) g ps p hg hps
        plines cfgs nested hentries with ⟨line, hline, a, b, hab⟩
      have hmem : line ∈
          solutionHeader ++ plines ++
            folderLines (groupProjects projects) ++ solutionGlobalHeader ++
            cfgs.map (fun c => "\t\t" ++ c) ++
            ["\tEndGlobalSection",
             "\tGlobalSection(NestedProjects) = preSolution"] ++
            nested.map (fun n2 => "\t\t" ++ n2) ++ solutionFooter :=
        List.mem_append_left _ (List.mem_append_left _
          (List.mem_append_left _ (List.mem_append_left _
            (List.mem_append_left _ (List.mem_append_left _
              (List.mem_append_right _ hline))))))
      rcases joinLines_contains _ line hmem with ⟨pre, post, hjoin⟩
      refine ⟨pre ++ a, b ++ post, ?_⟩
      rw [← hout2, hjoin, hab, str_regroup]

def c2proj : ProjectInfo :=
  ProjectInfo.create "PlayerService"
    ["Source", "Runtime", "MicroServices", "PlayerService"]
    ProjectType.executable "Runtime"

set_option maxRecDepth 100000 in
theorem vsSolution_deterministic_witness :
    c2proj ∈ [c2proj] ∧
    GenerateVsSolution ["Nut"] [c2proj] (fun _ => "AAAA") =
      GenerateVsSolution ["Nut"] [c2proj] (fun _ => "BBBB") ∧
    ∃ out, GenerateVsSolution ["Nut"] [c2proj] (fun _ => "AAAA") =
        Except.ok out ∧
      ∃ pre post, out = pre ++ GenerateGuid c2proj.name ++ post :=
  ⟨List.mem_singleton.mpr rfl,
   (vsSolution_deterministic ["Nut"] [c2proj] (fun _ => "AAAA")
     (fun _ => "BBBB")).1,
   ⟨_, rfl,
    (vsSolution_deterministic ["Nut"] [c2proj] (fun _ => "AAAA")
      (fun _ => "BBBB")).2 c2proj (List.mem_singleton.mpr rfl) _ rfl⟩⟩
